import Mathlib

/-
  Shallow embedding of the MDLog metadata-journal subsystem
  (src/src/tools/crushtool.cc, MDLog section starting around line 780).

  Conventions of the embedding:
  * positions, offsets, sizes are Nat; the event/segment counters that the
    C++ keeps as int are Int (so that the subtractions in trim and
    _trim_expired_segments are exact signed arithmetic);
  * the ordered std::map<uint64_t, LogSegment*> is a list of segments kept
    in ascending key order; the std::set<LogSegment*> members expiring_segments
    and expired_segments are lists of segment offsets (offsets are the map
    keys, hence unique identifiers for segments);
  * calls into external collaborators (Journaler, MDCache, PerfCounters)
    that matter to the claims are recorded as counters on the state
    (segadd, head_writes, stray_advances, mdcache_trims, safe_waiters);
  * fallible code paths guarded by assert(...) return none;
  * wall-clock time in MDLog::trim and the gather built by
    LogSegment::try_to_expire are external inputs, passed as a per-iteration
    time limit and a per-segment oracle.
-/

namespace MDLog

/-- Event type tags relevant to MDLog control flow (EVENT_SUBTREEMAP,
EVENT_SUBTREEMAP_TEST, EVENT_IMPORTFINISH, EVENT_RESETJOURNAL; every other
tag behaves uniformly and is collapsed into OTHER). -/
inductive EvType where
  | SUBTREEMAP
  | SUBTREEMAP_TEST
  | IMPORTFINISH
  | RESETJOURNAL
  | OTHER
deriving DecidableEq

/-- A LogEvent as MDLog observes it: its type tag, the length of its
encoding produced by encode_with_header (the number of bytes append_entry
adds to the write position), and whether LogEvent::decode succeeds on that
encoding during replay. -/
structure Event where
  ty : EvType
  size : Nat
  decodable : Bool
deriving DecidableEq

/-- LogSegment. `offset` and `seg_end` are the `offset`/`end` fields;
`num_events` is the per-segment event counter.  `events` is the ghost list
of the type tags of the events whose `_segment` back-pointer designates this
segment, in attachment order (the C++ events carry the back-pointer; the
list renders that ownership).  Modelled from the spec: the LogSegment
constructor (header not in src/) creates a segment with `end = offset` and
no events. -/
structure LogSegment where
  offset : Nat
  seg_end : Nat
  num_events : Int
  events : List EvType
deriving DecidableEq

/-- The slice of Journaler state MDLog reads and writes: the four stream
positions, the layout period, and a counter of write_head calls. -/
structure Journaler where
  write_pos : Nat
  safe_pos : Nat
  read_pos : Nat
  expire_pos : Nat
  layout_period : Nat
  head_writes : Nat
deriving DecidableEq

/-- Configuration and ambient MDS state read by the submit/replay paths:
g_conf->mds_log, g_conf->mds_debug_subtrees,
g_conf->mds_log_skip_corrupt_events, mds->is_any_replay(),
mds->is_resolve(), and the size of the encoding of the subtree-map event
produced by mds->mdcache->create_subtree_map(). -/
structure Conf where
  mds_log : Bool
  mds_debug_subtrees : Bool
  mds_log_skip_corrupt_events : Bool
  is_any_replay : Bool
  is_resolve : Bool
  smap_size : Nat
deriving DecidableEq

/-- MDLog state.  `segments`, `expiring`, `expired`, `num_events`,
`expiring_events`, `expired_events`, `capped`, `unflushed` are the
like-named fields; `journaler` is the active Journaler; the remaining
fields count externally observable calls: `segadd` mirrors the
l_mdl_segadd counter bumped in prepare_new_segment, `stray_advances`
counts mds->mdcache->advance_stray() calls, `safe_waiters` counts
journaler->wait_for_flush registrations, `mdcache_trims` counts
mds->mdcache->trim calls. -/
structure MDState where
  segments : List LogSegment
  expiring : List Nat
  expired : List Nat
  num_events : Int
  expiring_events : Int
  expired_events : Int
  capped : Bool
  unflushed : Nat
  journaler : Journaler
  segadd : Nat
  stray_advances : Nat
  safe_waiters : Nat
  mdcache_trims : Nat
deriving DecidableEq

/-- Insertion into the ordered segment map: `segments[k] = new LogSegment(k)`
keeps keys sorted and replaces the mapped value when the key is present. -/
def insertSeg : List LogSegment → LogSegment → List LogSegment
  | [], s => [s]
  | t :: rest, s =>
    if s.offset < t.offset then s :: t :: rest
    else if s.offset = t.offset then s :: rest
    else t :: insertSeg rest s

/-- Apply `f` to the final element of a list (the mapped value of the
greatest key: `segments.rbegin()->second`). -/
def modifyLast (f : α → α) : List α → List α
  | [] => []
  | [x] => [f x]
  | x :: y :: rest => x :: modifyLast f (y :: rest)

/-- Modelled from the spec: MDLog::get_last_segment_offset (header not in
src/) returns the greatest key of the segment map; on the sorted-list
representation that is the offset of the final entry (0 stands for the
asserted-unreachable empty case). -/
def get_last_segment_offset (st : MDState) : Nat :=
  match st.segments.getLast? with
  | some s => s.offset
  | none => 0

/-- Modelled from the spec: MDLog::peek_current_segment (header not in
src/) returns the segment with the greatest key, or NULL when the map is
empty. -/
def peek_current_offset (st : MDState) : Option Nat :=
  st.segments.getLast?.map (·.offset)

/-- The segment map keys are strictly ascending (always true of std::map;
a hypothesis on list-represented states where a claim needs it). -/
def segSorted (l : List LogSegment) : Prop :=
  l.Pairwise (fun a b => a.offset < b.offset)

instance (l : List LogSegment) : Decidable (segSorted l) := by
  unfold segSorted; infer_instance

/-- What happened to a Context* callback handed to MDLog. -/
inductive CbFate where
  | noCb
  | completedNow (r : Int)
  | flushWait
deriving DecidableEq

/-- The subtree-map event returned by mds->mdcache->create_subtree_map(). -/
def mkSubtreeMap (conf : Conf) : Event :=
  { ty := EvType.SUBTREEMAP, size := conf.smap_size, decodable := true }

/-- The synthetic debug event of MDLog::submit_entry: create_subtree_map()
retagged with EVENT_SUBTREEMAP_TEST. -/
def mkSubtreeMapTest (conf : Conf) : Event :=
  { ty := EvType.SUBTREEMAP_TEST, size := conf.smap_size, decodable := true }

/-- The body of MDLog::submit_entry between the mds_log check and the
rotation logic: attach the event to the current segment
(segments.rbegin()->second), bump its num_events and the subsystem
num_events, append the encoding (write_pos grows by the encoded size),
set the segment end to the new write position, bump unflushed, and
register the flush waiter when a callback was supplied. -/
def appendToCurrent (st : MDState) (le : Event) (hasCb : Bool) : MDState :=
  let wp' := st.journaler.write_pos + le.size
  { st with
    segments := modifyLast (fun s =>
      { s with num_events := s.num_events + 1,
               events := s.events ++ [le.ty],
               seg_end := wp' }) st.segments,
    num_events := st.num_events + 1,
    unflushed := st.unflushed + 1,
    safe_waiters := st.safe_waiters + (if hasCb then 1 else 0),
    journaler := { st.journaler with write_pos := wp' } }

/-- MDLog::prepare_new_segment: insert `new LogSegment(write_pos)` at the
current write position, bump the l_mdl_segadd counter, and advance the
stray directory on the metadata cache. -/
def prepare_new_segment (st : MDState) : MDState :=
  { st with
    segments := insertSeg st.segments
      { offset := st.journaler.write_pos,
        seg_end := st.journaler.write_pos,
        num_events := 0,
        events := [] },
    segadd := st.segadd + 1,
    stray_advances := st.stray_advances + 1 }

/-- MDLog::submit_entry, fuel-indexed to account for the bounded recursion
through start_new_segment / journal_segment_subtree_map and the debug
subtree-map injection (the recursion depth is at most 3 because the inner
events are EVENT_SUBTREEMAP / EVENT_SUBTREEMAP_TEST).  Returns none when
an assert fires (is_any_replay, segments.empty, capped) or the fuel runs
out.  The assert(le == cur_event) pairing with start_entry holds by
construction at every call site and is not part of the state. -/
def submitEntryFuel (conf : Conf) : Nat → Bool → MDState → Event → Option MDState
  | 0, _, _, _ => none
  | Nat.succ fuel, hasCb, st, le =>
    if conf.is_any_replay then none
    else if conf.mds_log = false then some st
    else if st.segments.isEmpty then none
    else if st.capped then none
    else
      let st1 := appendToCurrent st le hasCb
      let last_seg := get_last_segment_offset st1
      let period := st1.journaler.layout_period
      if le.ty = EvType.SUBTREEMAP ∨
         (le.ty = EvType.IMPORTFINISH ∧ conf.is_resolve) then
        some st1
      else if st1.journaler.write_pos / period ≠ last_seg / period then
        -- start_new_segment(): prepare_new_segment + journal_segment_subtree_map
        submitEntryFuel conf fuel false (prepare_new_segment st1) (mkSubtreeMap conf)
      else if conf.mds_debug_subtrees ∧ le.ty ≠ EvType.SUBTREEMAP_TEST then
        submitEntryFuel conf fuel false st1 (mkSubtreeMapTest conf)
      else
        some st1

/-- The fuel handed to top-level calls; any value at least 3 yields the
same results. -/
def submitFuel : Nat := 4

/-- MDLog::submit_entry(le, c).  The pair carries what happened to `c`:
completed immediately with 0 when the log is disabled, registered as a
flush waiter otherwise. -/
def submit_entry (conf : Conf) (st : MDState) (le : Event) (hasCb : Bool) :
    Option (MDState × CbFate) :=
  match submitEntryFuel conf submitFuel hasCb st le with
  | none => none
  | some st' =>
    some (st',
      if hasCb then
        (if conf.mds_log then CbFate.flushWait else CbFate.completedNow 0)
      else CbFate.noCb)

/-- MDLog::wait_for_safe: register a flush waiter when the log is enabled,
complete the callback with 0 immediately otherwise. -/
def wait_for_safe (conf : Conf) (st : MDState) : MDState × CbFate :=
  if conf.mds_log then
    ({ st with safe_waiters := st.safe_waiters + 1 }, CbFate.flushWait)
  else
    (st, CbFate.completedNow 0)

/-- MDLog::flush: journaler->flush() when there are unflushed entries
(no modelled state effect), then reset unflushed. -/
def flush (st : MDState) : MDState :=
  { st with unflushed := 0 }

/-- MDLog::cap. -/
def cap (st : MDState) : MDState :=
  { st with capped := true }

/-- MDLog::start_new_segment(onsync): prepare_new_segment, then
journal_segment_subtree_map (which submits create_subtree_map() through
submit_entry), then wait_for_safe(onsync) and flush() when a callback was
supplied. -/
def start_new_segment (conf : Conf) (st : MDState) (onsync : Bool) :
    Option MDState :=
  match submitEntryFuel conf submitFuel false (prepare_new_segment st)
      (mkSubtreeMap conf) with
  | none => none
  | some st2 => some (if onsync then flush (wait_for_safe conf st2).1 else st2)

/-- MDLog::_expired(ls): unless the log is uncapped and ls is the current
segment (pointer-compared against peek_current_segment), move ls into the
expired set and add its events to expired_events. -/
def expiredSeg (ls : LogSegment) (st : MDState) : MDState :=
  if st.capped = false ∧ peek_current_offset st = some ls.offset then
    st
  else
    { st with
      expired := st.expired.insert ls.offset,
      expired_events := st.expired_events + ls.num_events }

/-- MDLog::try_expire(ls, op_prio): build the expiry gather through
LogSegment::try_to_expire (the `hasSubs` oracle says whether the gather
has sub-operations for this segment).  With subs, ls becomes expiring
(assert it was not already); without, _expired(ls) runs directly.  The
op_prio argument only prioritizes backend I/O and has no modelled effect. -/
def try_expire (hasSubs : Nat → Bool) (ls : LogSegment) (st : MDState) :
    Option MDState :=
  if hasSubs ls.offset then
    if ls.offset ∈ st.expiring then none
    else some { st with
      expiring := st.expiring.insert ls.offset,
      expiring_events := st.expiring_events + ls.num_events }
  else
    some (expiredSeg ls st)

/-- MDLog::_maybe_expired(ls, op_prio): assert ls is expiring, remove it
from the expiring set, subtract its events, and re-run try_expire. -/
def maybe_expired (hasSubs : Nat → Bool) (ls : LogSegment) (st : MDState) :
    Option MDState :=
  if ls.offset ∈ st.expiring then
    try_expire hasSubs ls
      { st with
        expiring := st.expiring.erase ls.offset,
        expiring_events := st.expiring_events - ls.num_events }
  else none

/-- Trim configuration: g_conf->mds_log_max_segments,
g_conf->mds_log_max_events, g_conf->mds_log_max_expiring, and the
wall-clock budget of MDLog::trim rendered as the number of loop iterations
that fit in the two seconds (the clock is monotone, so "stop < now" first
becomes true at some iteration index and stays true). -/
structure TrimConf where
  max_segments : Int
  max_events : Int
  max_expiring : Int
  timeLimit : Nat
deriving DecidableEq

/-- The while-condition of the trim loop: some configured bound is active
and exceeded by the live count (events or segments minus expiring and
expired). -/
def loopCondB (maxev maxseg : Int) (st : MDState) : Bool :=
  (maxev ≥ 0 ∧ st.num_events - st.expiring_events - st.expired_events > maxev) ∨
  (maxseg ≥ 0 ∧
    (st.segments.length : Int) - (st.expiring.length : Int) -
      (st.expired.length : Int) > maxseg)

/-- The trim loop of MDLog::trim over the (ascending) segment map.  `i` is
the iteration index (for the clock); the result pairs the state at loop
exit with the list of segments not yet taken from the iterator.  The
map itself is not mutated by the loop, so iterating over the entry list
is faithful. -/
def trimLoop (tc : TrimConf) (hasSubs : Nat → Bool) (maxev maxseg : Int) :
    List LogSegment → Nat → MDState → Option (MDState × List LogSegment)
  | [], _, st => some (st, [])
  | ls :: rest, i, st =>
    if loopCondB maxev maxseg st = false then some (st, ls :: rest)
    else if tc.timeLimit ≤ i then some (st, ls :: rest)
    else if tc.max_expiring ≤ (st.expiring.length : Int) then
      some (st, ls :: rest)
    else if st.journaler.safe_pos < ls.seg_end then some (st, ls :: rest)
    else if ls.offset ∈ st.expiring then trimLoop tc hasSubs maxev maxseg rest (i + 1) st
    else if ls.offset ∈ st.expired then trimLoop tc hasSubs maxev maxseg rest (i + 1) st
    else
      match try_expire hasSubs ls st with
      | none => none
      | some st' => trimLoop tc hasSubs maxev maxseg rest (i + 1) st'

/-- The loop of MDLog::_trim_expired_segments: while the oldest segment is
expired, drop it from the map and the expired set, subtract its events
from expired_events and num_events, and raise expire_pos to its offset.
The list argument is the segment map of the state (the recursion peels the
map head by head); the Bool reports whether anything was trimmed. -/
def tesLoop : List LogSegment → MDState → MDState × Bool
  | [], st => (st, false)
  | ls :: rest, st =>
    if ls.offset ∈ st.expired then
      let st1 : MDState :=
        { st with
          segments := rest,
          expired := st.expired.erase ls.offset,
          expired_events := st.expired_events - ls.num_events,
          num_events := st.num_events - ls.num_events,
          journaler := { st.journaler with
            expire_pos := max st.journaler.expire_pos ls.offset } }
      ((tesLoop rest st1).1, true)
    else (st, false)

/-- MDLog::_trim_expired_segments: run the trimming loop, then write the
journal head when at least one segment was trimmed. -/
def trim_expired_segments (st : MDState) : MDState :=
  match tesLoop st.segments st with
  | (st', true) =>
    { st' with journaler :=
      { st'.journaler with head_writes := st'.journaler.head_writes + 1 } }
  | (st', false) => st'

/-- MDLog::trim(m): resolve the bounds (m overrides mds_log_max_events
when non-negative), return immediately on an empty map, otherwise run the
trim loop and then _trim_expired_segments. -/
def trim (tc : TrimConf) (hasSubs : Nat → Bool) (m : Int) (st : MDState) :
    Option MDState :=
  let maxseg := tc.max_segments
  let maxev := if m ≥ 0 then m else tc.max_events
  if st.segments.isEmpty then some st
  else
    match trimLoop tc hasSubs maxev maxseg st.segments 0 st with
    | none => none
    | some (st', _) => some (trim_expired_segments st')

/-- The loop of MDLog::standby_trim_segments: while there are segments and
the oldest one ends at or before the journaler expire position, clear its
dirty lists (opaque cache handles, no modelled state) and remove it.
Modelled from the spec: remove_oldest_segment (header not in src/) erases
the first map entry and destroys the segment, adjusting no counters. -/
def stsLoop : List LogSegment → MDState → MDState × Bool
  | [], st => (st, false)
  | seg :: rest, st =>
    if st.journaler.expire_pos < seg.seg_end then (st, false)
    else ((stsLoop rest { st with segments := rest }).1, true)

/-- MDLog::standby_trim_segments: trim segments wholly below the
journaler expire position, then ask the metadata cache to trim when any
segment was removed. -/
def standby_trim_segments (st : MDState) : MDState :=
  match stsLoop st.segments st with
  | (st', true) => { st' with mdcache_trims := st'.mdcache_trims + 1 }
  | (st', false) => st'

/-- Linux errno values used by the replay and recovery paths. -/
def ENOENT : Int := 2

def EINVAL : Int := 22

def EAGAIN : Int := 11

/-- try_read_entry advances the journaler read position past the event's
encoding. -/
def readAdvance (st : MDState) (le : Event) : MDState :=
  { st with journaler :=
    { st.journaler with read_pos := st.journaler.read_pos + le.size } }

/-- The `segments[pos] = new LogSegment(pos)` of _replay_thread: a fresh
segment at the event's start position. -/
def insertReplaySeg (st : MDState) (pos : Nat) : MDState :=
  { st with segments := insertSeg st.segments (LogSegment.mk pos pos 0 []) }

/-- The attach half of the replay loop body: skip the event when no
subtree map has opened a segment yet, otherwise hand it to the current
segment, bump both counters, pull the segment end to the read position,
and replay it into the metadata cache (no modelled state). -/
def replayAttach (st : MDState) (le : Event) : MDState :=
  if st.segments.isEmpty then st
  else
    { st with
      segments := modifyLast (fun s =>
        { s with num_events := s.num_events + 1,
                 events := s.events ++ [le.ty],
                 seg_end := st.journaler.read_pos }) st.segments,
      num_events := st.num_events + 1 }

/-- One successful iteration of the event-processing part of
MDLog::_replay_thread: remember the read position, let try_read_entry
advance it past the event, decode (abort unless
mds_log_skip_corrupt_events on failure, else skip the event), open a new
segment at the event's position on EVENT_SUBTREEMAP / EVENT_RESETJOURNAL,
then attach. -/
def replay_one (conf : Conf) (st : MDState) (le : Event) : Option MDState :=
  if le.decodable = false then
    if conf.mds_log_skip_corrupt_events then some (readAdvance st le)
    else none
  else if le.ty = EvType.SUBTREEMAP ∨ le.ty = EvType.RESETJOURNAL then
    some (replayAttach
      (insertReplaySeg (readAdvance st le) st.journaler.read_pos) le)
  else
    some (replayAttach (readAdvance st le) le)

/-- Externally visible actions of the error branch of
MDLog::_replay_thread. -/
inductive RpAct where
  | rereadHead
  | standbyTrim
  | suicide
  | finishWaiters (r : Int)
deriving DecidableEq

/-- Backend responses consumed by the replay error branch: whether the
journaler is read-only, the error it reported, the result of the
synchronous reread_head, and the expire position the re-read head
carries. -/
structure ReplayErrEnv where
  readonly : Bool
  err : Int
  reread_err : Int
  reread_expire_pos : Nat
deriving DecidableEq

/-- The `if (journaler->get_error())` branch of MDLog::_replay_thread
followed by the loop break and the finish_contexts over the replay
waiters.  ENOENT asserts a read-only journaler and turns into EAGAIN;
EINVAL with read_pos < expire_pos asserts read-only and turns into EAGAIN;
EINVAL otherwise re-reads the head synchronously (suicide on a reread
error), runs standby_trim_segments, and turns into EAGAIN only if the
read position now lies below the refreshed expire position; any other
error is handed to the waiters unchanged. -/
def replay_handle_error (env : ReplayErrEnv) (st : MDState) :
    Option (MDState × List RpAct) :=
  let r := env.err
  if r = -ENOENT then
    if env.readonly then some (st, [RpAct.finishWaiters (-EAGAIN)]) else none
  else if r = -EINVAL then
    if st.journaler.read_pos < st.journaler.expire_pos then
      if env.readonly then some (st, [RpAct.finishWaiters (-EAGAIN)]) else none
    else if env.reread_err ≠ 0 then
      some (st, [RpAct.rereadHead, RpAct.suicide])
    else
      let st1 := { st with journaler :=
        { st.journaler with expire_pos := env.reread_expire_pos } }
      let st2 := standby_trim_segments st1
      let r' :=
        if st2.journaler.read_pos < st2.journaler.expire_pos then -EAGAIN
        else r
      some (st2, [RpAct.rereadHead, RpAct.standbyTrim, RpAct.finishWaiters r'])
  else
    some (st, [RpAct.finishWaiters r])

/-- The JournalPointer record: front and back journal inodes (0 = absent). -/
structure JournalPointer where
  front : Nat
  back : Nat
deriving DecidableEq

/-- Modelled from the spec: MDS_INO_LOG_OFFSET, the base of the primary
per-node journal inodes (mdstypes.h is not in src/). -/
def INO_LOG_OFFSET : Nat := 0x200

/-- Modelled from the spec: MDS_INO_LOG_BACKUP_OFFSET, the base of the
secondary per-node journal inodes (mdstypes.h is not in src/). -/
def INO_LOG_BACKUP_OFFSET : Nat := 0x300

/-- Externally visible actions of MDLog::_recovery_thread and
MDLog::_reformat_journal. -/
inductive JAct where
  | savePointer (front back : Nat)
  | recoverJournal (ino : Nat)
  | createJournal (ino fmt : Nat)
  | writeHead (ino : Nat)
  | appendEvent (ino : Nat)
  | flushJournal (ino : Nat)
  | eraseJournal (ino : Nat)
  | installJournal (ino : Nat)
  | handoffReformat (front back : Nat)
  | completeWith (r : Int)
deriving DecidableEq

/-- Backend responses consumed by MDLog::_recovery_thread: the node id,
the JournalPointer load result and loaded value, whether pointer saves
succeed (they are asserted), the recovery and erase results for the back
journal, the recovery result and stream format of the front journal, and
g_conf->mds_journal_format. -/
structure RecEnv where
  nodeid : Nat
  load_result : Int
  loaded : JournalPointer
  save_ok : Bool
  back_recover_result : Int
  back_erase_result : Int
  front_recover_result : Int
  front_format : Nat
  conf_journal_format : Nat
deriving DecidableEq

/-- MDLog::_recovery_thread as the sequence of its externally visible
actions.  Returns none when an assert fires (pointer load error other
than ENOENT, failed pointer save, failed recovery of the back journal). -/
def recovery_thread (env : RecEnv) : Option (List JAct) :=
  -- read the pointer object; initialize it when absent
  let init :=
    if env.load_result = -ENOENT then
      if env.save_ok then
        some (JournalPointer.mk (INO_LOG_OFFSET + env.nodeid) 0,
          [JAct.savePointer (INO_LOG_OFFSET + env.nodeid) 0])
      else none
    else if env.load_result ≠ 0 then none
    else some (env.loaded, [])
  match init with
  | none => none
  | some (jp0, acts0) =>
    -- erase the back journal left by a crashed rewrite
    let cleanup :=
      if jp0.back ≠ 0 then
        if env.back_recover_result ≠ 0 then none
        else if env.back_erase_result ≠ 0 ∧ env.back_erase_result ≠ -ENOENT then
          -- erase failed: log and leave the pointer as it is
          some (jp0, acts0 ++ [JAct.recoverJournal jp0.back,
                               JAct.eraseJournal jp0.back])
        else if env.save_ok then
          some ({ jp0 with back := 0 },
            acts0 ++ [JAct.recoverJournal jp0.back, JAct.eraseJournal jp0.back,
                      JAct.savePointer jp0.front 0])
        else none
      else some (jp0, acts0)
    match cleanup with
    | none => none
    | some (jp, acts) =>
      -- recover the front journal
      let acts := acts ++ [JAct.recoverJournal jp.front]
      if env.front_recover_result ≠ 0 then
        some (acts ++ [JAct.completeWith env.front_recover_result])
      else if env.conf_journal_format ≤ env.front_format then
        some (acts ++ [JAct.installJournal jp.front, JAct.completeWith 0])
      else
        some (acts ++ [JAct.handoffReformat jp.front jp.back])

/-- Backend responses consumed by MDLog::_reformat_journal: the node id,
g_conf->mds_journal_format, the number of entries transcribed out of the
old journal, the error the old journal reports at the end of the
transcription loop (0 = clean end of stream), whether pointer saves
succeed, and the erase result for the old journal. -/
structure RfEnv where
  nodeid : Nat
  conf_journal_format : Nat
  old_events : Nat
  old_error : Int
  save_ok : Bool
  erase_result : Int
deriving DecidableEq

/-- MDLog::_reformat_journal on a pointer jp and the already-recovered old
journal (its inode is jp.front, the inode _recovery_thread opened).
Returns the action sequence and the final pointer, or none when an assert
fires (null pointer, failed save, transcription error, failed erase). -/
def reformat_journal (env : RfEnv) (jp : JournalPointer) :
    Option (List JAct × JournalPointer) :=
  if jp.front = 0 ∧ jp.back = 0 then none
  else
    let primary := INO_LOG_OFFSET + env.nodeid
    let secondary := INO_LOG_BACKUP_OFFSET + env.nodeid
    let back := if jp.front = primary then secondary else primary
    let old_ino := jp.front
    if env.save_ok = false then none
    else if env.old_error ≠ 0 then none
    else if env.erase_result ≠ 0 then none
    else
      some ([JAct.savePointer jp.front back,
             JAct.createJournal back env.conf_journal_format,
             JAct.writeHead back]
            ++ List.replicate env.old_events (JAct.appendEvent back)
            ++ [JAct.flushJournal back,
                JAct.savePointer back jp.front,
                JAct.eraseJournal old_ino,
                JAct.savePointer back 0,
                JAct.installJournal back,
                JAct.completeWith 0],
        JournalPointer.mk back 0)

/-- The MDLog operations whose interleavings the event-count invariant is
stated over: submit_entry, start_new_segment, trim, _trim_expired_segments,
try_expire, _maybe_expired, _expired, and one replayed event of
_replay_thread.  The expiry operations designate their segment by its map
key. -/
inductive MDOp where
  | submit (le : Event) (hasCb : Bool)
  | startSeg (onsync : Bool)
  | trimOp (m : Int)
  | trimExpired
  | tryExpire (off : Nat)
  | maybeExpired (off : Nat)
  | expireOp (off : Nat)
  | replayOne (le : Event)
deriving DecidableEq

/-- Look a segment up by its map key. -/
def findSeg (st : MDState) (off : Nat) : Option LogSegment :=
  st.segments.find? (fun s => s.offset = off)

/-- One operation applied to the state. -/
def step (conf : Conf) (tc : TrimConf) (hasSubs : Nat → Bool) :
    MDOp → MDState → Option MDState
  | MDOp.submit le hasCb, st => (submit_entry conf st le hasCb).map (·.1)
  | MDOp.startSeg onsync, st => start_new_segment conf st onsync
  | MDOp.trimOp m, st => trim tc hasSubs m st
  | MDOp.trimExpired, st => some (trim_expired_segments st)
  | MDOp.tryExpire off, st =>
    match findSeg st off with
    | none => none
    | some ls => try_expire hasSubs ls st
  | MDOp.maybeExpired off, st =>
    match findSeg st off with
    | none => none
    | some ls => maybe_expired hasSubs ls st
  | MDOp.expireOp off, st =>
    match findSeg st off with
    | none => none
    | some ls => some (expiredSeg ls st)
  | MDOp.replayOne le, st => replay_one conf st le

/-- Run a sequence of operations. -/
def run (conf : Conf) (tc : TrimConf) (hasSubs : Nat → Bool) :
    List MDOp → MDState → Option MDState
  | [], st => some st
  | op :: rest, st =>
    match step conf tc hasSubs op st with
    | none => none
    | some st' => run conf tc hasSubs rest st'

/-- The event-count invariant: the subsystem counter equals the sum of the
per-segment counters over the segment map. -/
def evInv (st : MDState) : Prop :=
  st.num_events = (st.segments.map (·.num_events)).sum

instance (st : MDState) : Decidable (evInv st) := by
  unfold evInv; infer_instance

/-- The per-operation freshness side condition real executions satisfy:
an operation that opens a segment inserts it at a position strictly above
every existing map key (submit appends the event first, so its insertions
sit at or above write_pos + size; replay inserts at the read position of
the event).  It rules out the map-key collision in which
`segments[k] = new LogSegment(k)` silently drops an existing segment. -/
def stepFreshB (op : MDOp) (st : MDState) : Bool :=
  match op with
  | MDOp.submit le _ =>
    decide (∀ s ∈ st.segments, s.offset < st.journaler.write_pos + le.size)
  | MDOp.startSeg _ =>
    decide (∀ s ∈ st.segments, s.offset < st.journaler.write_pos)
  | MDOp.replayOne le =>
    !(le.ty = EvType.SUBTREEMAP ∨ le.ty = EvType.RESETJOURNAL) ||
      decide (∀ s ∈ st.segments, s.offset < st.journaler.read_pos)
  | _ => true

/-- The freshness condition along a whole run. -/
def runOKB (conf : Conf) (tc : TrimConf) (hasSubs : Nat → Bool) :
    List MDOp → MDState → Bool
  | [], _ => true
  | op :: rest, st =>
    stepFreshB op st &&
      (match step conf tc hasSubs op st with
       | none => true
       | some st' => runOKB conf tc hasSubs rest st')

/-! ### Helper lemmas -/

theorem insertSeg_ne_nil (l : List LogSegment) (k : LogSegment) :
    insertSeg l k ≠ [] := by
  cases l with
  | nil => simp [insertSeg]
  | cons t rest =>
    unfold insertSeg
    split_ifs <;> simp

theorem insertSeg_append (l : List LogSegment) (k : LogSegment)
    (h : ∀ s ∈ l, s.offset < k.offset) : insertSeg l k = l ++ [k] := by
  induction l with
  | nil => rfl
  | cons t rest ih =>
    have ht : t.offset < k.offset := h t (List.mem_cons_self t rest)
    unfold insertSeg
    rw [if_neg (by omega), if_neg (by omega)]
    rw [ih (fun s hs => h s (List.mem_cons_of_mem t hs))]
    rfl

theorem modifyLast_append (f : α → α) (x : α) (l : List α) :
    modifyLast f (l ++ [x]) = l ++ [f x] := by
  induction l with
  | nil => rfl
  | cons t rest ih =>
    cases rest with
    | nil => rfl
    | cons u rest' =>
      show t :: modifyLast f ((u :: rest') ++ [x]) = t :: ((u :: rest') ++ [f x])
      rw [ih]

theorem modifyLast_ne_nil (f : α → α) (l : List α) (h : l ≠ []) :
    modifyLast f l ≠ [] := by
  cases l with
  | nil => exact absurd rfl h
  | cons t rest => cases rest <;> simp [modifyLast]

theorem modifyLast_getLast? (f : α → α) (l : List α) :
    (modifyLast f l).getLast? = l.getLast?.map f := by
  induction l with
  | nil => rfl
  | cons t rest ih =>
    cases rest with
    | nil => rfl
    | cons u rest' =>
      show (t :: modifyLast f (u :: rest')).getLast? =
        ((u :: rest').getLast?).map f
      rw [← ih]
      cases hML : modifyLast f (u :: rest') with
      | nil => exact absurd hML (modifyLast_ne_nil f _ (by simp))
      | cons a as => rw [List.getLast?_cons_cons]

@[simp] theorem appendToCurrent_segadd (st : MDState) (le : Event) (cb : Bool) :
    (appendToCurrent st le cb).segadd = st.segadd := rfl

@[simp] theorem appendToCurrent_capped (st : MDState) (le : Event) (cb : Bool) :
    (appendToCurrent st le cb).capped = st.capped := rfl

@[simp] theorem appendToCurrent_stray (st : MDState) (le : Event) (cb : Bool) :
    (appendToCurrent st le cb).stray_advances = st.stray_advances := rfl

@[simp] theorem appendToCurrent_write_pos (st : MDState) (le : Event) (cb : Bool) :
    (appendToCurrent st le cb).journaler.write_pos =
      st.journaler.write_pos + le.size := rfl

@[simp] theorem appendToCurrent_period (st : MDState) (le : Event) (cb : Bool) :
    (appendToCurrent st le cb).journaler.layout_period =
      st.journaler.layout_period := rfl

@[simp] theorem prepare_capped (st : MDState) :
    (prepare_new_segment st).capped = st.capped := rfl

@[simp] theorem prepare_segadd (st : MDState) :
    (prepare_new_segment st).segadd = st.segadd + 1 := rfl

@[simp] theorem prepare_stray (st : MDState) :
    (prepare_new_segment st).stray_advances = st.stray_advances + 1 := rfl

@[simp] theorem prepare_segments_ne_nil (st : MDState) :
    (prepare_new_segment st).segments ≠ [] :=
  insertSeg_ne_nil _ _

theorem appendToCurrent_last_offset (st : MDState) (le : Event) (cb : Bool) :
    get_last_segment_offset (appendToCurrent st le cb) =
      get_last_segment_offset st := by
  unfold get_last_segment_offset appendToCurrent
  simp only [modifyLast_getLast?]
  cases st.segments.getLast? <;> rfl

theorem isEmpty_false_of_ne_nil {l : List α} (h : l ≠ []) :
    l.isEmpty = false := by
  cases l with
  | nil => exact absurd rfl h
  | cons a l => rfl

/-! ### Concrete fixtures used by witnesses and counterexamples -/

/-- A journaler at position 0 with layout period 100. -/
def jrn0 : Journaler :=
  { write_pos := 0, safe_pos := 0, read_pos := 0, expire_pos := 0,
    layout_period := 100, head_writes := 0 }

/-- An empty MDLog state over jrn0. -/
def stEmpty : MDState :=
  { segments := [], expiring := [], expired := [], num_events := 0,
    expiring_events := 0, expired_events := 0, capped := false,
    unflushed := 0, journaler := jrn0, segadd := 0, stray_advances := 0,
    safe_waiters := 0, mdcache_trims := 0 }

/-- A state with one fresh segment at offset 0 over jrn0. -/
def stOneSeg : MDState :=
  { stEmpty with segments :=
    [{ offset := 0, seg_end := 0, num_events := 0, events := [] }] }

/-- Configuration with the log disabled. -/
def confOff : Conf :=
  { mds_log := false, mds_debug_subtrees := false,
    mds_log_skip_corrupt_events := false, is_any_replay := false,
    is_resolve := false, smap_size := 40 }

/-- Configuration with the log enabled, debug subtrees off. -/
def confOn : Conf :=
  { confOff with mds_log := true }

/-- Configuration with the log enabled and mds_debug_subtrees set. -/
def confDebug : Conf :=
  { confOn with mds_debug_subtrees := true, smap_size := 60 }

/-- A 10-byte event with an uninterpreted type tag. -/
def evOther : Event := { ty := EvType.OTHER, size := 10, decodable := true }

/-! ### C10: submit_entry and wait_for_safe with mds_log disabled -/

/-- Claim C10: with g_conf->mds_log false, submit_entry completes the
supplied callback immediately with 0 and changes nothing (no append, no
segment attachment, no counters), and wait_for_safe likewise completes
its callback immediately with 0. -/
theorem c10_log_disabled (conf : Conf) (st : MDState) (le : Event)
    (hrep : conf.is_any_replay = false) (hlog : conf.mds_log = false) :
    submit_entry conf st le true = some (st, CbFate.completedNow 0) ∧
      wait_for_safe conf st = (st, CbFate.completedNow 0) := by
  constructor
  · unfold submit_entry submitFuel submitEntryFuel
    rw [hrep, hlog]
    simp
  · unfold wait_for_safe
    rw [hlog]
    simp

/-- Witness for C10 at a concrete disabled-log configuration. -/
theorem c10_log_disabled_witness :
    submit_entry confOff stEmpty evOther true =
        some (stEmpty, CbFate.completedNow 0) ∧
      wait_for_safe confOff stEmpty = (stEmpty, CbFate.completedNow 0) :=
  c10_log_disabled confOff stEmpty evOther rfl rfl

/-! ### C1: segment rotation after submit_entry -/

theorem submitEntryFuel_succ_enabled (conf : Conf) (fuel : Nat) (cb : Bool)
    (st : MDState) (le : Event)
    (hrep : conf.is_any_replay = false) (hlog : conf.mds_log = true)
    (hne : st.segments ≠ []) (hcap : st.capped = false) :
    submitEntryFuel conf (fuel + 1) cb st le =
      (if le.ty = EvType.SUBTREEMAP ∨
          (le.ty = EvType.IMPORTFINISH ∧ conf.is_resolve) then
        some (appendToCurrent st le cb)
      else if (appendToCurrent st le cb).journaler.write_pos /
            (appendToCurrent st le cb).journaler.layout_period ≠
          get_last_segment_offset (appendToCurrent st le cb) /
            (appendToCurrent st le cb).journaler.layout_period then
        submitEntryFuel conf fuel false
          (prepare_new_segment (appendToCurrent st le cb)) (mkSubtreeMap conf)
      else if conf.mds_debug_subtrees ∧ le.ty ≠ EvType.SUBTREEMAP_TEST then
        submitEntryFuel conf fuel false (appendToCurrent st le cb)
          (mkSubtreeMapTest conf)
      else some (appendToCurrent st le cb)) := by
  conv => lhs; unfold submitEntryFuel
  rw [hrep, hlog]
  simp only [isEmpty_false_of_ne_nil hne, hcap, Bool.false_eq_true, if_false]
  simp

/-- Claim C1 (amended): after submit_entry with the debug subtree-map
injection off, rotation is suppressed when the submitted event is an
EVENT_SUBTREEMAP or an EVENT_IMPORTFINISH during resolve, and otherwise a
new segment is started (prepare_new_segment runs, bumping segadd) exactly
when the write position after the append and the greatest segment-map key
fall into different layout periods. -/
theorem c1_rotation_amended (conf : Conf) (st : MDState) (le : Event)
    (cb : Bool)
    (hrep : conf.is_any_replay = false) (hlog : conf.mds_log = true)
    (hdbg : conf.mds_debug_subtrees = false)
    (hne : st.segments ≠ []) (hcap : st.capped = false) :
    ∃ st' fate, submit_entry conf st le cb = some (st', fate) ∧
      st'.segadd = st.segadd +
        (if le.ty = EvType.SUBTREEMAP ∨
            (le.ty = EvType.IMPORTFINISH ∧ conf.is_resolve) then 0
         else if (st.journaler.write_pos + le.size) /
               st.journaler.layout_period =
             get_last_segment_offset st / st.journaler.layout_period then 0
         else 1) := by
  have hcap1 : (appendToCurrent st le cb).capped = false := by
    rw [appendToCurrent_capped]; exact hcap
  have hstep : submitEntryFuel conf submitFuel cb st le =
      (if le.ty = EvType.SUBTREEMAP ∨
          (le.ty = EvType.IMPORTFINISH ∧ conf.is_resolve) then
        some (appendToCurrent st le cb)
      else if (appendToCurrent st le cb).journaler.write_pos /
            (appendToCurrent st le cb).journaler.layout_period ≠
          get_last_segment_offset (appendToCurrent st le cb) /
            (appendToCurrent st le cb).journaler.layout_period then
        submitEntryFuel conf 3 false
          (prepare_new_segment (appendToCurrent st le cb)) (mkSubtreeMap conf)
      else if conf.mds_debug_subtrees ∧ le.ty ≠ EvType.SUBTREEMAP_TEST then
        submitEntryFuel conf 3 false (appendToCurrent st le cb)
          (mkSubtreeMapTest conf)
      else some (appendToCurrent st le cb)) :=
    submitEntryFuel_succ_enabled conf 3 cb st le hrep hlog hne hcap
  by_cases hsup : le.ty = EvType.SUBTREEMAP ∨
      (le.ty = EvType.IMPORTFINISH ∧ conf.is_resolve)
  · -- rotation suppressed
    refine ⟨appendToCurrent st le cb,
      (if cb then (if conf.mds_log then CbFate.flushWait
        else CbFate.completedNow 0) else CbFate.noCb), ?_, ?_⟩
    · unfold submit_entry
      rw [hstep, if_pos hsup]
    · rw [if_pos hsup, appendToCurrent_segadd]; omega
  · by_cases hflr : (st.journaler.write_pos + le.size) /
        st.journaler.layout_period =
        get_last_segment_offset st / st.journaler.layout_period
    · -- same layout period: no rotation (debug injection is off)
      refine ⟨appendToCurrent st le cb,
        (if cb then (if conf.mds_log then CbFate.flushWait
          else CbFate.completedNow 0) else CbFate.noCb), ?_, ?_⟩
      · unfold submit_entry
        rw [hstep, if_neg hsup, if_neg (by
            simp only [appendToCurrent_write_pos, appendToCurrent_period,
              appendToCurrent_last_offset, ne_eq, not_not]
            exact hflr),
          if_neg (by rw [hdbg]; simp)]
      · rw [if_neg hsup, if_pos hflr, appendToCurrent_segadd]; omega
    · -- different layout period: start_new_segment runs
      have hinner : submitEntryFuel conf 3 false
          (prepare_new_segment (appendToCurrent st le cb))
          (mkSubtreeMap conf) =
          some (appendToCurrent
            (prepare_new_segment (appendToCurrent st le cb))
            (mkSubtreeMap conf) false) := by
        show submitEntryFuel conf (2 + 1) false _ _ = _
        rw [submitEntryFuel_succ_enabled conf 2 false
            (prepare_new_segment (appendToCurrent st le cb))
            (mkSubtreeMap conf) hrep hlog (prepare_segments_ne_nil _)
            (by rw [prepare_capped]; exact hcap1)]
        simp [mkSubtreeMap]
      refine ⟨appendToCurrent (prepare_new_segment (appendToCurrent st le cb))
        (mkSubtreeMap conf) false,
        (if cb then (if conf.mds_log then CbFate.flushWait
          else CbFate.completedNow 0) else CbFate.noCb), ?_, ?_⟩
      · unfold submit_entry
        rw [hstep, if_neg hsup, if_pos (by
            simp only [appendToCurrent_write_pos, appendToCurrent_period,
              appendToCurrent_last_offset, ne_eq]
            exact hflr),
          hinner]
      · rw [if_neg hsup, if_neg hflr, appendToCurrent_segadd, prepare_segadd,
          appendToCurrent_segadd]

/-- Counterexample to C1 as stated: with mds_debug_subtrees on, a submit
whose write position stays inside the current layout period (so the claim
says no segment may be started) nevertheless starts a new segment, because
the injected EVENT_SUBTREEMAP_TEST crosses the period boundary and
rotates. -/
theorem c1_counterexample :
    (submit_entry confDebug stOneSeg
        { ty := EvType.OTHER, size := 50, decodable := true } false).map
        (fun p => p.1.segadd) = some 1 ∧
      stOneSeg.segadd = 0 ∧
      ¬(EvType.OTHER = EvType.SUBTREEMAP ∨
        (EvType.OTHER = EvType.IMPORTFINISH ∧ confDebug.is_resolve)) ∧
      (stOneSeg.journaler.write_pos + 50) / stOneSeg.journaler.layout_period =
        get_last_segment_offset stOneSeg / stOneSeg.journaler.layout_period := by
  decide

/-- Witness for the amended C1 at a concrete submit that stays inside the
current layout period. -/
theorem c1_rotation_witness :
    ∃ st' fate, submit_entry confOn stOneSeg evOther false = some (st', fate) ∧
      st'.segadd = stOneSeg.segadd +
        (if evOther.ty = EvType.SUBTREEMAP ∨
            (evOther.ty = EvType.IMPORTFINISH ∧ confOn.is_resolve) then 0
         else if (stOneSeg.journaler.write_pos + evOther.size) /
               stOneSeg.journaler.layout_period =
             get_last_segment_offset stOneSeg /
               stOneSeg.journaler.layout_period then 0
         else 1) :=
  c1_rotation_amended confOn stOneSeg evOther false rfl rfl rfl
    (by decide) rfl

/-! ### C2: start_new_segment -/

@[simp] theorem wait_for_safe_segments (conf : Conf) (st : MDState) :
    ((wait_for_safe conf st).1).segments = st.segments := by
  unfold wait_for_safe; split_ifs <;> rfl

@[simp] theorem wait_for_safe_stray (conf : Conf) (st : MDState) :
    ((wait_for_safe conf st).1).stray_advances = st.stray_advances := by
  unfold wait_for_safe; split_ifs <;> rfl

@[simp] theorem flush_segments (st : MDState) :
    (flush st).segments = st.segments := rfl

@[simp] theorem flush_stray (st : MDState) :
    (flush st).stray_advances = st.stray_advances := rfl

/-- Claim C2: start_new_segment inserts a fresh LogSegment at the current
write position, advances the stray-directory pointer on the metadata
cache, and returns with the new segment holding exactly one event, the
freshly submitted subtree map. -/
theorem c2_start_new_segment (conf : Conf) (st : MDState) (onsync : Bool)
    (hrep : conf.is_any_replay = false) (hlog : conf.mds_log = true)
    (hcap : st.capped = false)
    (hfresh : ∀ s ∈ st.segments, s.offset < st.journaler.write_pos) :
    ∃ st', start_new_segment conf st onsync = some st' ∧
      st'.segments = st.segments ++
        [{ offset := st.journaler.write_pos,
           seg_end := st.journaler.write_pos + conf.smap_size,
           num_events := 1,
           events := [EvType.SUBTREEMAP] }] ∧
      st'.stray_advances = st.stray_advances + 1 := by
  have hprep : (prepare_new_segment st).segments =
      st.segments ++
        [{ offset := st.journaler.write_pos,
           seg_end := st.journaler.write_pos,
           num_events := 0, events := [] }] := by
    unfold prepare_new_segment
    exact insertSeg_append st.segments _ hfresh
  have hsub : submitEntryFuel conf submitFuel false (prepare_new_segment st)
      (mkSubtreeMap conf) =
      some (appendToCurrent (prepare_new_segment st) (mkSubtreeMap conf)
        false) := by
    show submitEntryFuel conf (3 + 1) false _ _ = _
    rw [submitEntryFuel_succ_enabled conf 3 false (prepare_new_segment st)
      (mkSubtreeMap conf) hrep hlog (prepare_segments_ne_nil _)
      (by rw [prepare_capped]; exact hcap)]
    simp [mkSubtreeMap]
  have hsegs : (appendToCurrent (prepare_new_segment st) (mkSubtreeMap conf)
      false).segments =
      st.segments ++
        [{ offset := st.journaler.write_pos,
           seg_end := st.journaler.write_pos + conf.smap_size,
           num_events := 1,
           events := [EvType.SUBTREEMAP] }] := by
    unfold appendToCurrent
    simp only [hprep, modifyLast_append]
    rfl
  have hstray : (appendToCurrent (prepare_new_segment st) (mkSubtreeMap conf)
      false).stray_advances = st.stray_advances + 1 := by
    rw [appendToCurrent_stray, prepare_stray]
  refine ⟨if onsync then
      flush (wait_for_safe conf
        (appendToCurrent (prepare_new_segment st) (mkSubtreeMap conf) false)).1
    else appendToCurrent (prepare_new_segment st) (mkSubtreeMap conf) false,
    ?_, ?_, ?_⟩
  · unfold start_new_segment
    rw [hsub]
  · cases onsync with
    | false => simp only [if_neg Bool.false_ne_true]; exact hsegs
    | true => simp only [if_true, flush_segments, wait_for_safe_segments]; exact hsegs
  · cases onsync with
    | false => simp only [if_neg Bool.false_ne_true]; exact hstray
    | true =>
      simp only [if_true, flush_stray, wait_for_safe_stray]
      exact hstray

/-- Witness for C2 on a one-segment state whose segment sits strictly
below the write position. -/
theorem c2_start_new_segment_witness :
    ∃ st', start_new_segment confOn
        { stOneSeg with journaler := { jrn0 with write_pos := 55 } }
        false = some st' ∧
      st'.segments =
        ({ stOneSeg with journaler := { jrn0 with write_pos := 55 } } :
            MDState).segments ++
        [{ offset := 55, seg_end := 55 + confOn.smap_size, num_events := 1,
           events := [EvType.SUBTREEMAP] }] ∧
      st'.stray_advances =
        ({ stOneSeg with journaler := { jrn0 with write_pos := 55 } } :
            MDState).stray_advances + 1 :=
  c2_start_new_segment confOn
    { stOneSeg with journaler := { jrn0 with write_pos := 55 } } false
    rfl rfl rfl (by decide)

/-! ### C6: the current segment is protected from expiry while uncapped -/

/-- Claim C6: while cap() has not run, _expired never places the current
segment (the greatest map key) into the expired set, even when its expiry
gather came back empty (try_expire with no sub-operations); after cap()
the same segment is inserted into the expired set. -/
theorem c6_current_segment_protected (hasSubs : Nat → Bool) (st : MDState)
    (ls : LogSegment) :
    (st.capped = false → peek_current_offset st = some ls.offset →
      hasSubs ls.offset = false →
      try_expire hasSubs ls st = some st) ∧
    ((expiredSeg ls (cap st)).expired = st.expired.insert ls.offset) := by
  constructor
  · intro hcap hcur hsubs
    unfold try_expire
    rw [hsubs]
    simp only [Bool.false_eq_true, if_false]
    unfold expiredSeg
    rw [if_pos ⟨hcap, hcur⟩]
  · unfold expiredSeg cap
    simp

/-- Witness for C6: the lone (hence current) segment of stOneSeg is left
alone by an empty-gather expiry while uncapped. -/
theorem c6_current_segment_protected_witness :
    try_expire (fun _ => false)
        { offset := 0, seg_end := 0, num_events := 0, events := [] }
        stOneSeg = some stOneSeg :=
  (c6_current_segment_protected (fun _ => false) stOneSeg
    { offset := 0, seg_end := 0, num_events := 0, events := [] }).1
    rfl (by decide) rfl

/-! ### C9: replay error dispositions -/

/-- The state after the synchronous reread_head of the replay error
branch: the journal head read back from the backend refreshes the expire
position. -/
def afterReread (env : ReplayErrEnv) (st : MDState) : MDState :=
  { st with journaler :=
    { st.journaler with expire_pos := env.reread_expire_pos } }

/-- Claim C9 (amended): on a read-only journal, a backend ENOENT completes
the replay waiters with EAGAIN; a backend EINVAL with read_pos already
below expire_pos completes them with EAGAIN directly (no head re-read);
a backend EINVAL with read_pos at or above expire_pos re-reads the head
synchronously, runs standby_trim_segments, and completes with EAGAIN
exactly when the read position then lies below the refreshed expire
position (with EINVAL otherwise); any other backend error completes the
waiters with that error code. -/
theorem c9_replay_errors_amended (env : ReplayErrEnv) (st : MDState)
    (hro : env.readonly = true) :
    (env.err = -ENOENT →
      replay_handle_error env st =
        some (st, [RpAct.finishWaiters (-EAGAIN)])) ∧
    (env.err = -EINVAL →
      st.journaler.read_pos < st.journaler.expire_pos →
      replay_handle_error env st =
        some (st, [RpAct.finishWaiters (-EAGAIN)])) ∧
    (env.err = -EINVAL →
      ¬ st.journaler.read_pos < st.journaler.expire_pos →
      env.reread_err = 0 →
      replay_handle_error env st =
        some (standby_trim_segments (afterReread env st),
          [RpAct.rereadHead, RpAct.standbyTrim,
           RpAct.finishWaiters
             (if (standby_trim_segments (afterReread env st)).journaler.read_pos <
                 (standby_trim_segments (afterReread env st)).journaler.expire_pos
              then -EAGAIN else -EINVAL)])) ∧
    (env.err ≠ -ENOENT → env.err ≠ -EINVAL →
      replay_handle_error env st =
        some (st, [RpAct.finishWaiters env.err])) := by
  refine ⟨?_, ?_, ?_, ?_⟩
  · intro h
    unfold replay_handle_error
    rw [if_pos h, if_pos hro]
  · intro h hlt
    unfold replay_handle_error
    rw [if_neg (by rw [h]; decide), if_pos h, if_pos hlt, if_pos hro]
  · intro h hge hreread
    unfold replay_handle_error
    rw [if_neg (by rw [h]; decide), if_pos h, if_neg hge,
      if_neg (by rw [hreread]; exact fun hc => hc rfl)]
    rw [h]
    rfl
  · intro h1 h2
    unfold replay_handle_error
    rw [if_neg h1, if_neg h2]

/-- The replay error environment of the counterexample: a read-only
journaler reporting EINVAL with a clean reread available. -/
def envC9 : ReplayErrEnv :=
  { readonly := true, err := -EINVAL, reread_err := 0,
    reread_expire_pos := 0 }

/-- A state whose read position lies below the expire position. -/
def stBehind : MDState :=
  { stEmpty with journaler := { jrn0 with read_pos := 5, expire_pos := 10 } }

/-- Counterexample to C9 as stated: with EINVAL and read_pos < expire_pos
the code completes with EAGAIN directly; no head re-read and no
standby_trim_segments happen, although the claim requires both in exactly
this case (the code performs them in the opposite case,
read_pos ≥ expire_pos). -/
theorem c9_counterexample :
    replay_handle_error envC9 stBehind =
        some (stBehind, [RpAct.finishWaiters (-EAGAIN)]) ∧
      envC9.err = -EINVAL ∧
      stBehind.journaler.read_pos < stBehind.journaler.expire_pos ∧
      RpAct.rereadHead ∉ [RpAct.finishWaiters (-EAGAIN)] ∧
      RpAct.standbyTrim ∉ [RpAct.finishWaiters (-EAGAIN)] := by
  decide

/-- Witness for the amended C9: a read-only ENOENT completes with EAGAIN. -/
theorem c9_replay_errors_witness :
    replay_handle_error
        { readonly := true, err := -ENOENT, reread_err := 0,
          reread_expire_pos := 0 } stEmpty =
      some (stEmpty, [RpAct.finishWaiters (-EAGAIN)]) :=
  (c9_replay_errors_amended
    { readonly := true, err := -ENOENT, reread_err := 0,
      reread_expire_pos := 0 } stEmpty rfl).1 rfl

/-! ### C7: recovery with a leftover back journal -/

/-- Claim C7: when the loaded JournalPointer carries back ≠ 0, recovery
opens and recovers the journal at back, erases it, saves the pointer with
back cleared and front untouched, and only then opens and recovers the
front journal (here: with a current-format front, recovery then installs
it and completes with 0). -/
theorem c7_recovery_back_cleanup (env : RecEnv)
    (hload : env.load_result = 0) (hback : env.loaded.back ≠ 0)
    (hrec : env.back_recover_result = 0) (hera : env.back_erase_result = 0)
    (hsave : env.save_ok = true) (hfrec : env.front_recover_result = 0)
    (hfmt : env.conf_journal_format ≤ env.front_format) :
    recovery_thread env =
      some [JAct.recoverJournal env.loaded.back,
            JAct.eraseJournal env.loaded.back,
            JAct.savePointer env.loaded.front 0,
            JAct.recoverJournal env.loaded.front,
            JAct.installJournal env.loaded.front,
            JAct.completeWith 0] := by
  unfold recovery_thread
  rw [hload, hrec, hera, hsave, hfrec]
  simp [hback, hfmt, ENOENT]

/-- A recovery environment with a stale back journal and a current-format
front journal. -/
def envRec : RecEnv :=
  { nodeid := 0, load_result := 0,
    loaded := { front := INO_LOG_OFFSET, back := INO_LOG_BACKUP_OFFSET },
    save_ok := true, back_recover_result := 0, back_erase_result := 0,
    front_recover_result := 0, front_format := 1, conf_journal_format := 1 }

/-- Witness for C7 on envRec. -/
theorem c7_recovery_back_cleanup_witness :
    recovery_thread envRec =
      some [JAct.recoverJournal INO_LOG_BACKUP_OFFSET,
            JAct.eraseJournal INO_LOG_BACKUP_OFFSET,
            JAct.savePointer INO_LOG_OFFSET 0,
            JAct.recoverJournal INO_LOG_OFFSET,
            JAct.installJournal INO_LOG_OFFSET,
            JAct.completeWith 0] :=
  c7_recovery_back_cleanup envRec rfl (by decide) rfl rfl rfl rfl
    (by decide)

/-! ### C8: journal reformat commit protocol -/

/-- Claim C8: a successful reformat chooses the secondary inode as back
when front is the primary (and the primary otherwise), creates and
installs the new journal with the configured format, ends with the
pointer holding front = that chosen back inode and back = 0, and erases
the old journal only after the swapped pointer has been persisted. -/
theorem c8_reformat_swap (env : RfEnv) (jp : JournalPointer) (back' : Nat)
    (hb : back' = (if jp.front = INO_LOG_OFFSET + env.nodeid then
      INO_LOG_BACKUP_OFFSET + env.nodeid else INO_LOG_OFFSET + env.nodeid))
    (hnn : ¬(jp.front = 0 ∧ jp.back = 0)) (hsave : env.save_ok = true)
    (holde : env.old_error = 0) (hera : env.erase_result = 0) :
    reformat_journal env jp =
      some ([JAct.savePointer jp.front back',
             JAct.createJournal back' env.conf_journal_format,
             JAct.writeHead back']
            ++ List.replicate env.old_events (JAct.appendEvent back')
            ++ [JAct.flushJournal back',
                JAct.savePointer back' jp.front,
                JAct.eraseJournal jp.front,
                JAct.savePointer back' 0,
                JAct.installJournal back',
                JAct.completeWith 0],
        { front := back', back := 0 }) ∧
    ([JAct.savePointer jp.front back',
      JAct.createJournal back' env.conf_journal_format,
      JAct.writeHead back']
      ++ List.replicate env.old_events (JAct.appendEvent back')
      ++ [JAct.flushJournal back',
          JAct.savePointer back' jp.front,
          JAct.eraseJournal jp.front,
          JAct.savePointer back' 0,
          JAct.installJournal back',
          JAct.completeWith 0]) =
      (([JAct.savePointer jp.front back',
         JAct.createJournal back' env.conf_journal_format,
         JAct.writeHead back']
        ++ List.replicate env.old_events (JAct.appendEvent back')
        ++ [JAct.flushJournal back', JAct.savePointer back' jp.front])
        ++ [JAct.eraseJournal jp.front]
        ++ [JAct.savePointer back' 0, JAct.installJournal back',
            JAct.completeWith 0]) ∧
    JAct.savePointer back' jp.front ∈
      ([JAct.savePointer jp.front back',
        JAct.createJournal back' env.conf_journal_format,
        JAct.writeHead back']
        ++ List.replicate env.old_events (JAct.appendEvent back')
        ++ [JAct.flushJournal back', JAct.savePointer back' jp.front]) := by
  refine ⟨?_, by simp, by simp⟩
  unfold reformat_journal
  rw [if_neg hnn, hsave]
  simp only [Bool.true_eq_false, if_false]
  rw [if_neg (by rw [holde]; simp), if_neg (by rw [hera]; simp), ← hb]

/-- A reformat environment transcribing two events. -/
def envRf : RfEnv :=
  { nodeid := 0, conf_journal_format := 1, old_events := 2, old_error := 0,
    save_ok := true, erase_result := 0 }

/-- Witness for C8: reformatting the primary-front pointer. -/
theorem c8_reformat_swap_witness :
    reformat_journal envRf { front := INO_LOG_OFFSET, back := 0 } =
      some ([JAct.savePointer INO_LOG_OFFSET INO_LOG_BACKUP_OFFSET,
             JAct.createJournal INO_LOG_BACKUP_OFFSET 1,
             JAct.writeHead INO_LOG_BACKUP_OFFSET]
            ++ List.replicate 2 (JAct.appendEvent INO_LOG_BACKUP_OFFSET)
            ++ [JAct.flushJournal INO_LOG_BACKUP_OFFSET,
                JAct.savePointer INO_LOG_BACKUP_OFFSET INO_LOG_OFFSET,
                JAct.eraseJournal INO_LOG_OFFSET,
                JAct.savePointer INO_LOG_BACKUP_OFFSET 0,
                JAct.installJournal INO_LOG_BACKUP_OFFSET,
                JAct.completeWith 0],
        { front := INO_LOG_BACKUP_OFFSET, back := 0 }) :=
  (c8_reformat_swap envRf { front := INO_LOG_OFFSET, back := 0 }
    INO_LOG_BACKUP_OFFSET (by decide) (by decide) rfl rfl rfl).1

/-! ### C4: _trim_expired_segments -/

theorem takeWhile_eq_of_forall {p q : α → Bool} :
    ∀ (l : List α), (∀ x ∈ l, p x = q x) → l.takeWhile p = l.takeWhile q
  | [], _ => rfl
  | a :: l, h => by
    simp only [List.takeWhile_cons]
    rw [h a (List.mem_cons_self a l)]
    cases q a with
    | false => rfl
    | true =>
      simp only [if_true]
      rw [takeWhile_eq_of_forall l (fun x hx => h x (List.mem_cons_of_mem a hx))]

theorem dropWhile_eq_of_forall {p q : α → Bool} :
    ∀ (l : List α), (∀ x ∈ l, p x = q x) → l.dropWhile p = l.dropWhile q
  | [], _ => rfl
  | a :: l, h => by
    simp only [List.dropWhile_cons]
    rw [h a (List.mem_cons_self a l)]
    cases q a with
    | false => rfl
    | true =>
      simp only [if_true]
      exact dropWhile_eq_of_forall l (fun x hx => h x (List.mem_cons_of_mem a hx))

theorem mem_of_mem_takeWhile {p : α → Bool} :
    ∀ {l : List α} {x : α}, x ∈ l.takeWhile p → x ∈ l
  | [], _, h => by simp at h
  | a :: l, x, h => by
    rw [List.takeWhile_cons] at h
    cases hpa : p a with
    | false => rw [hpa] at h; simp at h
    | true =>
      rw [hpa] at h
      simp only [if_true, List.mem_cons] at h
      cases h with
      | inl h => exact h ▸ List.mem_cons_self a l
      | inr h => exact List.mem_cons_of_mem a (mem_of_mem_takeWhile h)

theorem sorted_offsets_nodup :
    ∀ {l : List LogSegment}, segSorted l → (l.map (·.offset)).Nodup
  | [], _ => by simp
  | a :: l, h => by
    obtain ⟨h1, h2⟩ := List.pairwise_cons.mp h
    simp only [List.map_cons, List.nodup_cons]
    refine ⟨?_, sorted_offsets_nodup h2⟩
    intro hmem
    obtain ⟨x, hx, heq⟩ := List.mem_map.mp hmem
    have := h1 x hx
    omega

/-- The running maximum of an ascending offset list starting below all of
its elements is the last element's offset. -/
theorem foldl_max_eq_getLast (e : Nat) :
    ∀ (P : List LogSegment),
    P.Pairwise (fun a b => a.offset < b.offset) → (∀ s ∈ P, e ≤ s.offset) →
    P.foldl (fun q ls => max q ls.offset) e =
      (match P.getLast? with | none => e | some s => s.offset)
  | [], _, _ => rfl
  | a :: P, hpw, hlb => by
    have h1 : max e a.offset = a.offset :=
      Nat.max_eq_right (hlb a (List.mem_cons_self a P))
    have hpw' := (List.pairwise_cons.mp hpw).2
    have hlb' : ∀ s ∈ P, a.offset ≤ s.offset := fun s hs =>
      Nat.le_of_lt ((List.pairwise_cons.mp hpw).1 s hs)
    show List.foldl _ (max e a.offset) P = _
    rw [h1]
    cases P with
    | nil => rfl
    | cons b P' =>
      rw [foldl_max_eq_getLast a.offset (b :: P') hpw' hlb',
        List.getLast?_cons_cons]
      obtain ⟨y, hy⟩ := Option.isSome_iff_exists.mp
        (List.getLast?_isSome.mpr (by simp) : ((b :: P').getLast?).isSome)
      rw [hy]

/-- Full characterization of the _trim_expired_segments loop: it removes
exactly the longest expired prefix of the map, erases those offsets from
the expired set, subtracts their event counts, takes the running maximum
of their offsets into expire_pos, touches nothing else, and reports
whether anything was removed. -/
theorem tesLoop_spec :
    ∀ (l : List LogSegment) (st : MDState), st.segments = l →
    (l.map (·.offset)).Nodup →
    (tesLoop l st).1.segments =
        l.dropWhile (fun ls => decide (ls.offset ∈ st.expired)) ∧
    (tesLoop l st).1.expired =
        (l.takeWhile (fun ls => decide (ls.offset ∈ st.expired))).foldl
          (fun E ls => E.erase ls.offset) st.expired ∧
    (tesLoop l st).1.num_events =
        st.num_events -
          ((l.takeWhile (fun ls => decide (ls.offset ∈ st.expired))).map
            (·.num_events)).sum ∧
    (tesLoop l st).1.expired_events =
        st.expired_events -
          ((l.takeWhile (fun ls => decide (ls.offset ∈ st.expired))).map
            (·.num_events)).sum ∧
    (tesLoop l st).1.journaler.expire_pos =
        (l.takeWhile (fun ls => decide (ls.offset ∈ st.expired))).foldl
          (fun q ls => max q ls.offset) st.journaler.expire_pos ∧
    (tesLoop l st).1.journaler.head_writes = st.journaler.head_writes ∧
    (tesLoop l st).2 =
        !(l.takeWhile (fun ls => decide (ls.offset ∈ st.expired))).isEmpty
  | [], st, hseg, _ => by
    refine ⟨hseg, rfl, ?_, ?_, rfl, rfl, rfl⟩ <;> simp [tesLoop]
  | ls :: rest, st, hseg, hnd => by
    by_cases hin : ls.offset ∈ st.expired
    · -- head expired: removed, recurse
      have hne : ∀ x ∈ rest, x.offset ≠ ls.offset := by
        intro x hx
        simp only [List.map_cons, List.nodup_cons] at hnd
        intro hcontra
        exact hnd.1 (hcontra ▸ List.mem_map_of_mem (·.offset) hx)
      have hstep : tesLoop (ls :: rest) st =
          ((tesLoop rest
            { st with
              segments := rest,
              expired := st.expired.erase ls.offset,
              expired_events := st.expired_events - ls.num_events,
              num_events := st.num_events - ls.num_events,
              journaler := { st.journaler with
                expire_pos := max st.journaler.expire_pos ls.offset } }).1,
            true) := by
        simp only [tesLoop]
        rw [if_pos hin]
      have ih := tesLoop_spec rest
        { st with
          segments := rest,
          expired := st.expired.erase ls.offset,
          expired_events := st.expired_events - ls.num_events,
          num_events := st.num_events - ls.num_events,
          journaler := { st.journaler with
            expire_pos := max st.journaler.expire_pos ls.offset } }
        rfl (by
          simp only [List.map_cons, List.nodup_cons] at hnd
          exact hnd.2)
      have hcongr : ∀ x ∈ rest,
          decide (x.offset ∈ st.expired.erase ls.offset) =
            decide (x.offset ∈ st.expired) := by
        intro x hx
        rw [decide_eq_decide]
        exact List.mem_erase_of_ne (hne x hx)
      have htw : rest.takeWhile
          (fun x => decide (x.offset ∈ st.expired.erase ls.offset)) =
          rest.takeWhile (fun x => decide (x.offset ∈ st.expired)) :=
        takeWhile_eq_of_forall rest hcongr
      have hdw : rest.dropWhile
          (fun x => decide (x.offset ∈ st.expired.erase ls.offset)) =
          rest.dropWhile (fun x => decide (x.offset ∈ st.expired)) :=
        dropWhile_eq_of_forall rest hcongr
      have htake : (ls :: rest).takeWhile
          (fun x => decide (x.offset ∈ st.expired)) =
          ls :: rest.takeWhile (fun x => decide (x.offset ∈ st.expired)) := by
        rw [List.takeWhile_cons]
        simp [hin]
      have hdrop : (ls :: rest).dropWhile
          (fun x => decide (x.offset ∈ st.expired)) =
          rest.dropWhile (fun x => decide (x.offset ∈ st.expired)) := by
        rw [List.dropWhile_cons]
        simp [hin]
      obtain ⟨ih1, ih2, ih3, ih4, ih5, ih6, _⟩ := ih
      rw [htw] at ih2 ih3 ih4 ih5
      rw [hdw] at ih1
      refine ⟨?_, ?_, ?_, ?_, ?_, ?_, ?_⟩
      · rw [hstep]; rw [hdrop]; exact ih1
      · rw [hstep, htake]; exact ih2
      · rw [hstep, htake]
        simp only [List.map_cons, List.sum_cons]
        rw [ih3]
        simp only []
        omega
      · rw [hstep, htake]
        simp only [List.map_cons, List.sum_cons]
        rw [ih4]
        simp only []
        omega
      · rw [hstep, htake]
        simp only [List.foldl_cons]
        exact ih5
      · rw [hstep]; exact ih6
      · rw [hstep, htake]; simp
    · -- head not expired: loop stops
      have htake : (ls :: rest).takeWhile
          (fun x => decide (x.offset ∈ st.expired)) = [] := by
        rw [List.takeWhile_cons]
        simp [hin]
      have hdrop : (ls :: rest).dropWhile
          (fun x => decide (x.offset ∈ st.expired)) = ls :: rest := by
        rw [List.dropWhile_cons]
        simp [hin]
      have hstop : tesLoop (ls :: rest) st = (st, false) := by
        simp only [tesLoop]
        rw [if_neg hin]
      rw [hstop, htake, hdrop]
      refine ⟨hseg, rfl, by simp, by simp, rfl, rfl, rfl⟩

/-- Claim C4: _trim_expired_segments removes exactly the longest prefix
of oldest segments lying in the expired set; each removed segment leaves
the index and the expired set and has its events subtracted from
num_events (and expired_events), the journal expire position ends at the
last removed segment's offset (unchanged when nothing is removed, given
that it starts at or below every segment offset), and the journal head is
written exactly when at least one segment was removed. -/
theorem c4_trim_expired_segments (st : MDState)
    (hsorted : segSorted st.segments)
    (hexp : ∀ s ∈ st.segments, st.journaler.expire_pos ≤ s.offset) :
    (trim_expired_segments st).segments =
        st.segments.dropWhile (fun ls => decide (ls.offset ∈ st.expired)) ∧
    (trim_expired_segments st).expired =
        (st.segments.takeWhile (fun ls => decide (ls.offset ∈ st.expired))).foldl
          (fun E ls => E.erase ls.offset) st.expired ∧
    (trim_expired_segments st).num_events =
        st.num_events -
          ((st.segments.takeWhile (fun ls => decide (ls.offset ∈ st.expired))).map
            (·.num_events)).sum ∧
    (trim_expired_segments st).expired_events =
        st.expired_events -
          ((st.segments.takeWhile (fun ls => decide (ls.offset ∈ st.expired))).map
            (·.num_events)).sum ∧
    (trim_expired_segments st).journaler.expire_pos =
        (match (st.segments.takeWhile
            (fun ls => decide (ls.offset ∈ st.expired))).getLast? with
         | none => st.journaler.expire_pos
         | some s => s.offset) ∧
    (trim_expired_segments st).journaler.head_writes =
        st.journaler.head_writes +
          (if (st.segments.takeWhile
              (fun ls => decide (ls.offset ∈ st.expired))).isEmpty
           then 0 else 1) := by
  have hnd := sorted_offsets_nodup hsorted
  have hsub : List.Sublist
      (st.segments.takeWhile (fun ls => decide (ls.offset ∈ st.expired)))
      st.segments := by
    conv => rhs; rw [← List.takeWhile_append_dropWhile
      (p := fun ls => decide (ls.offset ∈ st.expired)) (l := st.segments)]
    exact List.sublist_append_left _ _
  have hPpw : (st.segments.takeWhile
      (fun ls => decide (ls.offset ∈ st.expired))).Pairwise
      (fun a b => a.offset < b.offset) := hsorted.sublist hsub
  have hPlb : ∀ s ∈ st.segments.takeWhile
      (fun ls => decide (ls.offset ∈ st.expired)),
      st.journaler.expire_pos ≤ s.offset :=
    fun s hs => hexp s (mem_of_mem_takeWhile hs)
  have hmax := foldl_max_eq_getLast st.journaler.expire_pos
    (st.segments.takeWhile (fun ls => decide (ls.offset ∈ st.expired)))
    hPpw hPlb
  obtain ⟨h1, h2, h3, h4, h5, h6, h7⟩ := tesLoop_spec st.segments st rfl hnd
  rcases hT : tesLoop st.segments st with ⟨st', b⟩
  rw [hT] at h1 h2 h3 h4 h5 h6 h7
  unfold trim_expired_segments
  rw [hT]
  cases b with
  | false =>
    have hPempty : (st.segments.takeWhile
        (fun ls => decide (ls.offset ∈ st.expired))).isEmpty = true := by
      rcases hE : (st.segments.takeWhile
        (fun ls => decide (ls.offset ∈ st.expired))).isEmpty
      · rw [hE] at h7; exact absurd h7 (by simp)
      · exact hE
    have hPnil : st.segments.takeWhile
        (fun ls => decide (ls.offset ∈ st.expired)) = [] := by
      cases hC : st.segments.takeWhile
        (fun ls => decide (ls.offset ∈ st.expired)) with
      | nil => rfl
      | cons a l => rw [hC] at hPempty; simp at hPempty
    refine ⟨h1, h2, h3, h4, ?_, ?_⟩
    · rw [h5, hmax]
    · rw [h6, if_pos hPempty]
      rfl
  | true =>
    have hPne : (st.segments.takeWhile
        (fun ls => decide (ls.offset ∈ st.expired))).isEmpty = false := by
      rcases hE : (st.segments.takeWhile
        (fun ls => decide (ls.offset ∈ st.expired))).isEmpty
      · exact hE
      · rw [hE] at h7; exact absurd h7 (by simp)
    refine ⟨h1, h2, h3, h4, ?_, ?_⟩
    · rw [h5, hmax]
    · show st'.journaler.head_writes + 1 = _
      rw [h6, hPne]
      rfl

/-- A state with one expired oldest segment and one live one. -/
def stTwoSeg : MDState :=
  { stEmpty with
    segments :=
      [{ offset := 0, seg_end := 10, num_events := 2,
         events := [EvType.SUBTREEMAP, EvType.OTHER] },
       { offset := 10, seg_end := 20, num_events := 1,
         events := [EvType.SUBTREEMAP] }],
    expired := [0],
    num_events := 3,
    expired_events := 2 }

/-- Witness for C4 on stTwoSeg. -/
theorem c4_trim_expired_segments_witness :
    (trim_expired_segments stTwoSeg).segments =
        stTwoSeg.segments.dropWhile
          (fun ls => decide (ls.offset ∈ stTwoSeg.expired)) ∧
    (trim_expired_segments stTwoSeg).expired =
        (stTwoSeg.segments.takeWhile
          (fun ls => decide (ls.offset ∈ stTwoSeg.expired))).foldl
          (fun E ls => E.erase ls.offset) stTwoSeg.expired ∧
    (trim_expired_segments stTwoSeg).num_events =
        stTwoSeg.num_events -
          ((stTwoSeg.segments.takeWhile
            (fun ls => decide (ls.offset ∈ stTwoSeg.expired))).map
            (·.num_events)).sum ∧
    (trim_expired_segments stTwoSeg).expired_events =
        stTwoSeg.expired_events -
          ((stTwoSeg.segments.takeWhile
            (fun ls => decide (ls.offset ∈ stTwoSeg.expired))).map
            (·.num_events)).sum ∧
    (trim_expired_segments stTwoSeg).journaler.expire_pos =
        (match (stTwoSeg.segments.takeWhile
            (fun ls => decide (ls.offset ∈ stTwoSeg.expired))).getLast? with
         | none => stTwoSeg.journaler.expire_pos
         | some s => s.offset) ∧
    (trim_expired_segments stTwoSeg).journaler.head_writes =
        stTwoSeg.journaler.head_writes +
          (if (stTwoSeg.segments.takeWhile
              (fun ls => decide (ls.offset ∈ stTwoSeg.expired))).isEmpty
           then 0 else 1) :=
  c4_trim_expired_segments stTwoSeg (by decide) (by decide)

/-! ### C3: the trim loop -/

theorem try_expire_isSome (hasSubs : Nat → Bool) (ls : LogSegment)
    (st : MDState) (h : ls.offset ∉ st.expiring) :
    ∃ st2, try_expire hasSubs ls st = some st2 := by
  cases hhs : hasSubs ls.offset with
  | false =>
    exact ⟨expiredSeg ls st, by unfold try_expire; rw [hhs]; simp⟩
  | true =>
    refine ⟨{ st with
      expiring := st.expiring.insert ls.offset,
      expiring_events := st.expiring_events + ls.num_events }, ?_⟩
    unfold try_expire
    rw [hhs]
    simp [h]

/-- The stop condition of the trim loop as the claim states it, evaluated
at the loop-exit state, the remaining (unvisited) segments, and the number
of iterations performed: the live count is within bounds, or the
iteration clock has crossed the wall-clock budget, or the expiring set
has reached mds_log_max_expiring, or the oldest remaining segment is not
yet safe on disk, or every segment has been visited. -/
def trimExitCond (tc : TrimConf) (maxev maxseg : Int) (st' : MDState)
    (rem : List LogSegment) (iFin : Nat) : Prop :=
  loopCondB maxev maxseg st' = false ∨
  tc.timeLimit ≤ iFin ∨
  tc.max_expiring ≤ (st'.expiring.length : Int) ∨
  (∃ a r2, rem = a :: r2 ∧ st'.journaler.safe_pos < a.seg_end) ∨
  rem = []

theorem trimLoop_exit (tc : TrimConf) (hasSubs : Nat → Bool)
    (maxev maxseg : Int) :
    ∀ (l : List LogSegment) (i : Nat) (st : MDState),
    ∃ st' k, trimLoop tc hasSubs maxev maxseg l i st = some (st', l.drop k) ∧
      trimExitCond tc maxev maxseg st' (l.drop k) (i + k)
  | [], i, st =>
    ⟨st, 0, rfl, Or.inr (Or.inr (Or.inr (Or.inr rfl)))⟩
  | ls :: rest, i, st => by
    by_cases h1 : loopCondB maxev maxseg st = false
    · refine ⟨st, 0, ?_, Or.inl h1⟩
      simp only [trimLoop]
      rw [if_pos h1, List.drop_zero]
    · by_cases h2 : tc.timeLimit ≤ i
      · refine ⟨st, 0, ?_, Or.inr (Or.inl (by omega))⟩
        simp only [trimLoop]
        rw [if_neg h1, if_pos h2, List.drop_zero]
      · by_cases h3 : tc.max_expiring ≤ (st.expiring.length : Int)
        · refine ⟨st, 0, ?_, Or.inr (Or.inr (Or.inl h3))⟩
          simp only [trimLoop]
          rw [if_neg h1, if_neg h2, if_pos h3, List.drop_zero]
        · by_cases h4 : st.journaler.safe_pos < ls.seg_end
          · refine ⟨st, 0, ?_, Or.inr (Or.inr (Or.inr (Or.inl
              ⟨ls, rest, rfl, h4⟩)))⟩
            simp only [trimLoop]
            rw [if_neg h1, if_neg h2, if_neg h3, if_pos h4, List.drop_zero]
          · by_cases h5 : ls.offset ∈ st.expiring
            · obtain ⟨st', k', heq, hcond⟩ :=
                trimLoop_exit tc hasSubs maxev maxseg rest (i + 1) st
              refine ⟨st', k' + 1, ?_, ?_⟩
              · simp only [trimLoop]
                rw [if_neg h1, if_neg h2, if_neg h3, if_neg h4, if_pos h5,
                  List.drop_succ_cons]
                exact heq
              · rw [List.drop_succ_cons]
                have harith : i + 1 + k' = i + (k' + 1) := by omega
                rw [← harith]
                exact hcond
            · by_cases h6 : ls.offset ∈ st.expired
              · obtain ⟨st', k', heq, hcond⟩ :=
                  trimLoop_exit tc hasSubs maxev maxseg rest (i + 1) st
                refine ⟨st', k' + 1, ?_, ?_⟩
                · simp only [trimLoop]
                  rw [if_neg h1, if_neg h2, if_neg h3, if_neg h4, if_neg h5,
                    if_pos h6, List.drop_succ_cons]
                  exact heq
                · rw [List.drop_succ_cons]
                  have harith : i + 1 + k' = i + (k' + 1) := by omega
                  rw [← harith]
                  exact hcond
              · obtain ⟨st2, hst2⟩ := try_expire_isSome hasSubs ls st h5
                obtain ⟨st', k', heq, hcond⟩ :=
                  trimLoop_exit tc hasSubs maxev maxseg rest (i + 1) st2
                refine ⟨st', k' + 1, ?_, ?_⟩
                · simp only [trimLoop]
                  rw [if_neg h1, if_neg h2, if_neg h3, if_neg h4, if_neg h5,
                    if_neg h6, hst2, List.drop_succ_cons]
                  exact heq
                · rw [List.drop_succ_cons]
                  have harith : i + 1 + k' = i + (k' + 1) := by omega
                  rw [← harith]
                  exact hcond

/-- Claim C3 (amended): on a non-empty segment index, trim runs its loop
over a prefix of the (ascending) segment map and exits exactly at a state
where the live count is within the resolved bounds, or the wall-clock
budget is exhausted, or |expiring| has reached mds_log_max_expiring, or
the oldest unvisited segment ends beyond the safe position, or every
segment has been visited; afterwards it runs _trim_expired_segments on
the loop-exit state. -/
theorem c3_trim_amended (tc : TrimConf) (hasSubs : Nat → Bool) (m : Int)
    (st : MDState) (hne : st.segments ≠ [])
    (hsorted : segSorted st.segments) :
    ∃ st' k,
      trimLoop tc hasSubs (if m ≥ 0 then m else tc.max_events)
          tc.max_segments st.segments 0 st =
        some (st', st.segments.drop k) ∧
      trim tc hasSubs m st = some (trim_expired_segments st') ∧
      segSorted (st.segments.take k) ∧
      trimExitCond tc (if m ≥ 0 then m else tc.max_events) tc.max_segments
        st' (st.segments.drop k) k := by
  obtain ⟨st', k, heq, hcond⟩ := trimLoop_exit tc hasSubs
    (if m ≥ 0 then m else tc.max_events) tc.max_segments st.segments 0 st
  refine ⟨st', k, heq, ?_, ?_, ?_⟩
  · unfold trim
    rw [isEmpty_false_of_ne_nil hne]
    simp only [Bool.false_eq_true, if_false]
    rw [heq]
  · exact hsorted.sublist (List.take_sublist k st.segments)
  · have : 0 + k = k := by omega
    rw [this] at hcond
    exact hcond

/-- The trim configuration of the counterexample: max_segments 0,
max_events disabled, max_expiring 5, a generous clock. -/
def tcCex : TrimConf :=
  { max_segments := 0, max_events := -1, max_expiring := 5,
    timeLimit := 1000 }

/-- A state holding a single flushed one-event segment (the current
segment) on an uncapped log. -/
def stTrimCex : MDState :=
  { stEmpty with
    segments := [{ offset := 0, seg_end := 10, num_events := 1,
                   events := [EvType.SUBTREEMAP] }],
    num_events := 1,
    journaler := { jrn0 with write_pos := 10, safe_pos := 10 } }

/-- Counterexample to C3 as stated: on stTrimCex the trim loop runs out of
segments (the lone current segment is declined by _expired on the
uncapped log) and stops although the live count still exceeds
max_segments, the clock budget is not exhausted, |expiring| is below
max_expiring, and no remaining segment ends beyond the safe position --
none of the claim's four stop conditions holds at exit. -/
theorem c3_counterexample :
    trimLoop tcCex (fun _ => false) (-1) 0 stTrimCex.segments 0 stTrimCex =
        some (stTrimCex, []) ∧
      trim tcCex (fun _ => false) (-1) stTrimCex =
        some (trim_expired_segments stTrimCex) ∧
      loopCondB (-1) 0 stTrimCex = true ∧
      ¬ tcCex.timeLimit ≤ 1 ∧
      ¬ tcCex.max_expiring ≤ (stTrimCex.expiring.length : Int) ∧
      ¬ stTrimCex.journaler.safe_pos < 10 := by
  decide

/-- Witness for the amended C3 at stTrimCex. -/
theorem c3_trim_amended_witness :
    ∃ st' k,
      trimLoop tcCex (fun _ => false)
          (if (-1 : Int) ≥ 0 then (-1 : Int) else tcCex.max_events)
          tcCex.max_segments stTrimCex.segments 0 stTrimCex =
        some (st', stTrimCex.segments.drop k) ∧
      trim tcCex (fun _ => false) (-1) stTrimCex =
        some (trim_expired_segments st') ∧
      segSorted (stTrimCex.segments.take k) ∧
      trimExitCond tcCex
        (if (-1 : Int) ≥ 0 then (-1 : Int) else tcCex.max_events)
        tcCex.max_segments st' (stTrimCex.segments.drop k) k :=
  c3_trim_amended tcCex (fun _ => false) (-1) stTrimCex (by decide)
    (by decide)

/-! ### C5: preservation of the event-count invariant -/

theorem map_sum_modifyLast (f : LogSegment → LogSegment)
    (hf : ∀ x, (f x).num_events = x.num_events + 1) :
    ∀ (l : List LogSegment), l ≠ [] →
    ((modifyLast f l).map (·.num_events)).sum =
      (l.map (·.num_events)).sum + 1
  | [], h => absurd rfl h
  | [x], _ => by simp [modifyLast, hf]
  | x :: y :: rest, _ => by
    have ih := map_sum_modifyLast f hf (y :: rest) (by simp)
    show ((x :: modifyLast f (y :: rest)).map (·.num_events)).sum = _
    simp only [List.map_cons, List.sum_cons] at ih ⊢
    rw [ih]
    omega

theorem offsets_pred_modifyLast (f : LogSegment → LogSegment)
    (hf : ∀ x, (f x).offset = x.offset) (P : Nat → Prop) :
    ∀ (l : List LogSegment), (∀ s ∈ l, P s.offset) →
    ∀ s ∈ modifyLast f l, P s.offset
  | [], _, s, hs => by simp [modifyLast] at hs
  | [x], h, s, hs => by
    simp only [modifyLast, List.mem_singleton] at hs
    rw [hs, hf]
    exact h x (List.mem_singleton.mpr rfl)
  | x :: y :: rest, h, s, hs => by
    rw [show modifyLast f (x :: y :: rest) = x :: modifyLast f (y :: rest)
      from rfl] at hs
    rcases List.mem_cons.mp hs with h' | h'
    · rw [h']
      exact h x (List.mem_cons_self x (y :: rest))
    · exact offsets_pred_modifyLast f hf P (y :: rest)
        (fun t ht => h t (List.mem_cons_of_mem x ht)) s h'

@[simp] theorem appendToCurrent_segments (st : MDState) (le : Event)
    (cb : Bool) :
    (appendToCurrent st le cb).segments =
      modifyLast (fun s =>
        { s with num_events := s.num_events + 1,
                 events := s.events ++ [le.ty],
                 seg_end := st.journaler.write_pos + le.size })
        st.segments := rfl

@[simp] theorem appendToCurrent_num_events (st : MDState) (le : Event)
    (cb : Bool) :
    (appendToCurrent st le cb).num_events = st.num_events + 1 := rfl

theorem evInv_appendToCurrent (st : MDState) (le : Event) (cb : Bool)
    (hne : st.segments ≠ []) (h : evInv st) :
    evInv (appendToCurrent st le cb) := by
  unfold evInv at h ⊢
  rw [appendToCurrent_segments, appendToCurrent_num_events,
    map_sum_modifyLast _ (fun x => rfl) st.segments hne, ← h]

theorem appendToCurrent_fresh (st : MDState) (le : Event) (cb : Bool)
    (hfresh : ∀ s ∈ st.segments,
      s.offset < st.journaler.write_pos + le.size) :
    ∀ s ∈ (appendToCurrent st le cb).segments,
      s.offset < (appendToCurrent st le cb).journaler.write_pos := by
  intro s hs
  rw [appendToCurrent_segments] at hs
  rw [appendToCurrent_write_pos]
  exact offsets_pred_modifyLast (fun s =>
      { s with num_events := s.num_events + 1,
               events := s.events ++ [le.ty],
               seg_end := st.journaler.write_pos + le.size })
    (fun x => rfl)
    (fun o => o < st.journaler.write_pos + le.size) st.segments hfresh s hs

theorem evInv_prepare (st : MDState)
    (hfresh : ∀ s ∈ st.segments, s.offset < st.journaler.write_pos)
    (h : evInv st) : evInv (prepare_new_segment st) := by
  unfold evInv at h ⊢
  show st.num_events = ((insertSeg st.segments _).map (·.num_events)).sum
  rw [insertSeg_append _ _ hfresh]
  simp only [List.map_append, List.sum_append, List.map_cons, List.map_nil,
    List.sum_cons, List.sum_nil]
  rw [← h]
  omega

theorem prepare_fresh (st : MDState) (d : Nat) (hd : 0 < d)
    (hfresh : ∀ s ∈ st.segments, s.offset < st.journaler.write_pos) :
    ∀ s ∈ (prepare_new_segment st).segments,
      s.offset < (prepare_new_segment st).journaler.write_pos + d := by
  intro s hs
  show s.offset < st.journaler.write_pos + d
  rw [show (prepare_new_segment st).segments =
    insertSeg st.segments
      { offset := st.journaler.write_pos,
        seg_end := st.journaler.write_pos,
        num_events := 0, events := [] } from rfl,
    insertSeg_append _ _ hfresh] at hs
  rcases List.mem_append.mp hs with h' | h'
  · have := hfresh s h'
    omega
  · rw [List.mem_singleton.mp h']
    show st.journaler.write_pos < st.journaler.write_pos + d
    omega

theorem submitFuel_evInv (conf : Conf) (hsmap : 0 < conf.smap_size) :
    ∀ (fuel : Nat) (cb : Bool) (st : MDState) (le : Event) (st' : MDState),
    submitEntryFuel conf fuel cb st le = some st' →
    (∀ s ∈ st.segments, s.offset < st.journaler.write_pos + le.size) →
    evInv st → evInv st'
  | 0, _, st, le, st', h, _, _ => by simp [submitEntryFuel] at h
  | fuel + 1, cb, st, le, st', h, hfresh, hinv => by
    by_cases hrep : conf.is_any_replay = true
    · unfold submitEntryFuel at h
      rw [if_pos hrep] at h
      exact absurd h (by simp)
    · by_cases hlog : conf.mds_log = true
      · by_cases hempty : st.segments.isEmpty = true
        · unfold submitEntryFuel at h
          rw [if_neg hrep,
            if_neg (by rw [hlog]; decide),
            if_pos hempty] at h
          exact absurd h (by simp)
        · by_cases hcap : st.capped = true
          · unfold submitEntryFuel at h
            rw [if_neg hrep,
              if_neg (by rw [hlog]; decide),
              if_neg hempty, if_pos hcap] at h
            exact absurd h (by simp)
          · have hne : st.segments ≠ [] := fun hnil =>
              hempty (by rw [hnil]; rfl)
            rw [submitEntryFuel_succ_enabled conf fuel cb st le
              (Bool.not_eq_true _ ▸ hrep) hlog hne
              (Bool.not_eq_true _ ▸ hcap)] at h
            have hinv1 : evInv (appendToCurrent st le cb) :=
              evInv_appendToCurrent st le cb hne hinv
            have hfresh1 : ∀ s ∈ (appendToCurrent st le cb).segments,
                s.offset < (appendToCurrent st le cb).journaler.write_pos :=
              appendToCurrent_fresh st le cb hfresh
            by_cases hsup : le.ty = EvType.SUBTREEMAP ∨
                (le.ty = EvType.IMPORTFINISH ∧ conf.is_resolve)
            · rw [if_pos hsup] at h
              exact (Option.some.inj h) ▸ hinv1
            · rw [if_neg hsup] at h
              by_cases hflr : (appendToCurrent st le cb).journaler.write_pos /
                    (appendToCurrent st le cb).journaler.layout_period ≠
                  get_last_segment_offset (appendToCurrent st le cb) /
                    (appendToCurrent st le cb).journaler.layout_period
              · rw [if_pos hflr] at h
                exact submitFuel_evInv conf hsmap fuel false
                  (prepare_new_segment (appendToCurrent st le cb))
                  (mkSubtreeMap conf) st' h
                  (prepare_fresh (appendToCurrent st le cb) conf.smap_size
                    hsmap hfresh1)
                  (evInv_prepare (appendToCurrent st le cb) hfresh1 hinv1)
              · rw [if_neg hflr] at h
                by_cases hdbg : conf.mds_debug_subtrees = true ∧
                    le.ty ≠ EvType.SUBTREEMAP_TEST
                · rw [if_pos hdbg] at h
                  exact submitFuel_evInv conf hsmap fuel false
                    (appendToCurrent st le cb) (mkSubtreeMapTest conf) st' h
                    (fun s hs => by
                      have := hfresh1 s hs
                      show s.offset <
                        (appendToCurrent st le cb).journaler.write_pos +
                          conf.smap_size
                      omega)
                    hinv1
                · rw [if_neg hdbg] at h
                  exact (Option.some.inj h) ▸ hinv1
      · unfold submitEntryFuel at h
        rw [if_neg hrep, if_pos (Bool.not_eq_true _ ▸ hlog)] at h
        exact (Option.some.inj h) ▸ hinv

theorem submit_entry_evInv (conf : Conf) (hsmap : 0 < conf.smap_size)
    (st : MDState) (le : Event) (cb : Bool) (st' : MDState) (fate : CbFate)
    (h : submit_entry conf st le cb = some (st', fate))
    (hfresh : ∀ s ∈ st.segments,
      s.offset < st.journaler.write_pos + le.size)
    (hinv : evInv st) : evInv st' := by
  unfold submit_entry at h
  cases hF : submitEntryFuel conf submitFuel cb st le with
  | none => rw [hF] at h; exact absurd h (by simp)
  | some stX =>
    rw [hF] at h
    have : stX = st' := congrArg Prod.fst (Option.some.inj h)
    exact this ▸ submitFuel_evInv conf hsmap submitFuel cb st le stX hF
      hfresh hinv

theorem evInv_wait_for_safe (conf : Conf) (st : MDState) (h : evInv st) :
    evInv (wait_for_safe conf st).1 := by
  unfold wait_for_safe
  split_ifs <;> exact h

theorem evInv_flush (st : MDState) (h : evInv st) : evInv (flush st) := h

theorem start_new_segment_evInv (conf : Conf) (hsmap : 0 < conf.smap_size)
    (st : MDState) (onsync : Bool) (st' : MDState)
    (h : start_new_segment conf st onsync = some st')
    (hfresh : ∀ s ∈ st.segments, s.offset < st.journaler.write_pos)
    (hinv : evInv st) : evInv st' := by
  unfold start_new_segment at h
  cases hF : submitEntryFuel conf submitFuel false (prepare_new_segment st)
      (mkSubtreeMap conf) with
  | none => rw [hF] at h; exact absurd h (by simp)
  | some st2 =>
    rw [hF] at h
    have h2 : evInv st2 :=
      submitFuel_evInv conf hsmap submitFuel false (prepare_new_segment st)
        (mkSubtreeMap conf) st2 hF
        (prepare_fresh st conf.smap_size hsmap hfresh)
        (evInv_prepare st hfresh hinv)
    have hval : (if onsync then flush (wait_for_safe conf st2).1 else st2)
        = st' := Option.some.inj h
    cases onsync with
    | false => exact hval ▸ h2
    | true => exact hval ▸ evInv_flush _ (evInv_wait_for_safe conf st2 h2)

theorem evInv_expiredSeg (ls : LogSegment) (st : MDState) (h : evInv st) :
    evInv (expiredSeg ls st) := by
  unfold expiredSeg
  split_ifs <;> exact h

theorem try_expire_evInv (hasSubs : Nat → Bool) (ls : LogSegment)
    (st st2 : MDState) (h : try_expire hasSubs ls st = some st2)
    (hinv : evInv st) : evInv st2 := by
  unfold try_expire at h
  by_cases hhs : hasSubs ls.offset = true
  · rw [if_pos hhs] at h
    by_cases hmem : ls.offset ∈ st.expiring
    · rw [if_pos hmem] at h; exact absurd h (by simp)
    · rw [if_neg hmem] at h
      exact (Option.some.inj h) ▸ hinv
  · rw [if_neg hhs] at h
    exact (Option.some.inj h) ▸ evInv_expiredSeg ls st hinv

theorem maybe_expired_evInv (hasSubs : Nat → Bool) (ls : LogSegment)
    (st st2 : MDState) (h : maybe_expired hasSubs ls st = some st2)
    (hinv : evInv st) : evInv st2 := by
  unfold maybe_expired at h
  by_cases hmem : ls.offset ∈ st.expiring
  · rw [if_pos hmem] at h
    exact try_expire_evInv hasSubs ls _ st2 h hinv
  · rw [if_neg hmem] at h
    exact absurd h (by simp)

theorem pair_some_fst {α β : Type} {a c : α} {b d : β}
    (h : some (a, b) = some (c, d)) : a = c :=
  congrArg Prod.fst (Option.some.inj h)

theorem trimLoop_evInv (tc : TrimConf) (hasSubs : Nat → Bool)
    (maxev maxseg : Int) :
    ∀ (l : List LogSegment) (i : Nat) (st st' : MDState)
    (rem : List LogSegment),
    trimLoop tc hasSubs maxev maxseg l i st = some (st', rem) →
    evInv st → evInv st'
  | [], i, st, st', rem, h, hinv => by
    simp only [trimLoop] at h
    exact pair_some_fst h ▸ hinv
  | ls :: rest, i, st, st', rem, h, hinv => by
    simp only [trimLoop] at h
    split_ifs at h with h1 h2 h3 h4 h5 h6
    · exact pair_some_fst h ▸ hinv
    · exact pair_some_fst h ▸ hinv
    · exact pair_some_fst h ▸ hinv
    · exact pair_some_fst h ▸ hinv
    · exact trimLoop_evInv tc hasSubs maxev maxseg rest (i + 1) st st' rem
        h hinv
    · exact trimLoop_evInv tc hasSubs maxev maxseg rest (i + 1) st st' rem
        h hinv
    · cases hE : try_expire hasSubs ls st with
      | none => rw [hE] at h; exact absurd h (by simp)
      | some st2 =>
        rw [hE] at h
        exact trimLoop_evInv tc hasSubs maxev maxseg rest (i + 1) st2 st'
          rem h (try_expire_evInv hasSubs ls st st2 hE hinv)

theorem tesLoop_evInv :
    ∀ (l : List LogSegment) (st : MDState), st.segments = l →
    evInv st → evInv (tesLoop l st).1
  | [], st, _, hinv => hinv
  | ls :: rest, st, hseg, hinv => by
    simp only [tesLoop]
    by_cases hin : ls.offset ∈ st.expired
    · rw [if_pos hin]
      refine tesLoop_evInv rest _ rfl ?_
      unfold evInv at hinv ⊢
      rw [hseg] at hinv
      simp only [List.map_cons, List.sum_cons] at hinv
      show st.num_events - ls.num_events =
        (List.map (fun x => x.num_events) rest).sum
      omega
    · rw [if_neg hin]
      exact hinv

theorem trim_expired_segments_evInv (st : MDState) (hinv : evInv st) :
    evInv (trim_expired_segments st) := by
  unfold trim_expired_segments
  have h := tesLoop_evInv st.segments st rfl hinv
  rcases hT : tesLoop st.segments st with ⟨st1, b⟩
  rw [hT] at h
  cases b with
  | false => exact h
  | true => exact h

theorem trim_evInv (tc : TrimConf) (hasSubs : Nat → Bool) (m : Int)
    (st st' : MDState) (h : trim tc hasSubs m st = some st')
    (hinv : evInv st) : evInv st' := by
  unfold trim at h
  by_cases hempty : st.segments.isEmpty = true
  · rw [if_pos hempty] at h
    exact (Option.some.inj h) ▸ hinv
  · rw [if_neg hempty] at h
    cases hL : trimLoop tc hasSubs (if m ≥ 0 then m else tc.max_events)
        tc.max_segments st.segments 0 st with
    | none => rw [hL] at h; exact absurd h (by simp)
    | some p =>
      rw [hL] at h
      have := trimLoop_evInv tc hasSubs
        (if m ≥ 0 then m else tc.max_events) tc.max_segments st.segments 0
        st p.1 p.2 (by rw [hL]) hinv
      exact (Option.some.inj h) ▸ trim_expired_segments_evInv p.1 this

theorem evInv_readAdvance (st : MDState) (le : Event) (h : evInv st) :
    evInv (readAdvance st le) := h

theorem evInv_insertReplaySeg (st : MDState) (pos : Nat)
    (hfresh : ∀ s ∈ st.segments, s.offset < pos) (h : evInv st) :
    evInv (insertReplaySeg st pos) := by
  unfold evInv at h ⊢
  show st.num_events = ((insertSeg st.segments _).map (·.num_events)).sum
  rw [insertSeg_append _ _ hfresh]
  simp only [List.map_append, List.sum_append, List.map_cons, List.map_nil,
    List.sum_cons, List.sum_nil]
  rw [← h]
  omega

theorem evInv_replayAttach (st : MDState) (le : Event) (h : evInv st) :
    evInv (replayAttach st le) := by
  unfold replayAttach
  by_cases hempty : st.segments.isEmpty = true
  · rw [if_pos hempty]
    exact h
  · rw [if_neg hempty]
    have hne : st.segments ≠ [] := fun hnil => hempty (by rw [hnil]; rfl)
    unfold evInv at h ⊢
    show st.num_events + 1 = _
    rw [map_sum_modifyLast _ (fun x => rfl) st.segments hne, ← h]

theorem replay_one_evInv (conf : Conf) (st : MDState) (le : Event)
    (st' : MDState) (h : replay_one conf st le = some st')
    (hfresh : le.ty = EvType.SUBTREEMAP ∨ le.ty = EvType.RESETJOURNAL →
      ∀ s ∈ st.segments, s.offset < st.journaler.read_pos)
    (hinv : evInv st) : evInv st' := by
  unfold replay_one at h
  by_cases hdec : le.decodable = false
  · rw [if_pos hdec] at h
    by_cases hskip : conf.mds_log_skip_corrupt_events = true
    · rw [if_pos hskip] at h
      exact (Option.some.inj h) ▸ hinv
    · rw [if_neg hskip] at h
      exact absurd h (by simp)
  · rw [if_neg hdec] at h
    by_cases hty : le.ty = EvType.SUBTREEMAP ∨ le.ty = EvType.RESETJOURNAL
    · rw [if_pos hty] at h
      refine (Option.some.inj h) ▸ evInv_replayAttach _ le
        (evInv_insertReplaySeg (readAdvance st le) st.journaler.read_pos
          ?_ (evInv_readAdvance st le hinv))
      intro s hs
      exact hfresh hty s hs
    · rw [if_neg hty] at h
      exact (Option.some.inj h) ▸ evInv_replayAttach _ le
        (evInv_readAdvance st le hinv)

theorem step_evInv (conf : Conf) (tc : TrimConf) (hasSubs : Nat → Bool)
    (hsmap : 0 < conf.smap_size) (op : MDOp) (st st' : MDState)
    (h : step conf tc hasSubs op st = some st')
    (hfr : stepFreshB op st = true) (hinv : evInv st) : evInv st' := by
  cases op with
  | submit le cb =>
    simp only [step] at h
    cases hS : submit_entry conf st le cb with
    | none => rw [hS] at h; exact absurd h (by simp)
    | some p =>
      rw [hS] at h
      simp only [Option.map_some'] at h
      have hfr' : ∀ s ∈ st.segments,
          s.offset < st.journaler.write_pos + le.size :=
        of_decide_eq_true hfr
      exact (Option.some.inj h) ▸ submit_entry_evInv conf hsmap st le cb
        p.1 p.2 (by rw [hS]) hfr' hinv
  | startSeg onsync =>
    simp only [step] at h
    exact start_new_segment_evInv conf hsmap st onsync st' h
      (of_decide_eq_true hfr) hinv
  | trimOp m =>
    simp only [step] at h
    exact trim_evInv tc hasSubs m st st' h hinv
  | trimExpired =>
    simp only [step] at h
    exact (Option.some.inj h) ▸ trim_expired_segments_evInv st hinv
  | tryExpire off =>
    simp only [step] at h
    cases hF : findSeg st off with
    | none => rw [hF] at h; exact absurd h (by simp)
    | some ls =>
      rw [hF] at h
      exact try_expire_evInv hasSubs ls st st' h hinv
  | maybeExpired off =>
    simp only [step] at h
    cases hF : findSeg st off with
    | none => rw [hF] at h; exact absurd h (by simp)
    | some ls =>
      rw [hF] at h
      exact maybe_expired_evInv hasSubs ls st st' h hinv
  | expireOp off =>
    simp only [step] at h
    cases hF : findSeg st off with
    | none => rw [hF] at h; exact absurd h (by simp)
    | some ls =>
      rw [hF] at h
      exact (Option.some.inj h) ▸ evInv_expiredSeg ls st hinv
  | replayOne le =>
    simp only [step] at h
    refine replay_one_evInv conf st le st' h ?_ hinv
    intro hty
    simp only [stepFreshB] at hfr
    rw [decide_eq_true hty] at hfr
    simp only [Bool.not_true, Bool.false_or] at hfr
    exact of_decide_eq_true hfr

theorem run_evInv (conf : Conf) (tc : TrimConf) (hasSubs : Nat → Bool)
    (hsmap : 0 < conf.smap_size) :
    ∀ (ops : List MDOp) (st st' : MDState),
    runOKB conf tc hasSubs ops st = true →
    run conf tc hasSubs ops st = some st' → evInv st → evInv st'
  | [], st, st', _, h, hinv => (Option.some.inj h) ▸ hinv
  | op :: rest, st, st', hok, h, hinv => by
    unfold run at h
    unfold runOKB at hok
    cases hS : step conf tc hasSubs op st with
    | none => rw [hS] at h; exact absurd h (by simp)
    | some st1 =>
      rw [hS] at h hok
      simp only [Bool.and_eq_true] at hok
      obtain ⟨hfr, hok'⟩ := hok
      exact run_evInv conf tc hasSubs hsmap rest st1 st' hok' h
        (step_evInv conf tc hasSubs hsmap op st st1 hS hfr hinv)

/-- Claim C5: the subsystem num_events counter equals the sum of the
per-segment num_events over the whole index, after every prefix of any
sequence of submit, segment-start, trim, expiry and replay operations, as
long as each segment-opening operation inserts at a fresh map key (the
runOKB side condition; real executions satisfy it because write and read
positions advance strictly past every existing segment offset). -/
theorem c5_num_events_invariant (conf : Conf) (tc : TrimConf)
    (hasSubs : Nat → Bool) (ops : List MDOp) (st st' : MDState)
    (hsmap : 0 < conf.smap_size)
    (hok : runOKB conf tc hasSubs ops st = true)
    (hrun : run conf tc hasSubs ops st = some st')
    (hinv : evInv st) : evInv st' :=
  run_evInv conf tc hasSubs hsmap ops st st' hok hrun hinv

/-- Witness for C5: one submit on the one-segment state. -/
theorem c5_num_events_invariant_witness :
    evInv (appendToCurrent stOneSeg evOther false) :=
  c5_num_events_invariant confOn tcCex (fun _ => false)
    [MDOp.submit evOther false] stOneSeg
    (appendToCurrent stOneSeg evOther false)
    (by decide) (by decide) (by decide) (by decide)

end MDLog
